import Mathlib

/-!
Verification of the SecouristIA document-structuring and hybrid-retrieval
engine against its natural-language specification.

The TypeScript sources are shallowly embedded as Lean functions over
`List Char` (JS strings) and `ℚ` (JS floating-point similarity scores are
modelled as exact rationals).  External collaborators (the vector store,
the embedding API, the LLM reformulator) appear as explicit inputs: the
rows they return are parameters of the search functions, and their
failure modes are `Option`/`Bool` parameters mirroring the places where
the TypeScript either receives an in-band error object or catches a
thrown exception.

Namespaces:
* `ImportScript`   — the ingestion script (splitIntoChunks,
  detectPSELevel, splitIntoPSEFiches and their cleaning passes).
* `ChatRoute`      — src/src/app/api/chat/route.ts (searchDocuments,
  reformulateQuery).
* `ChatRouteV2`    — the chat-route variant with relevance gating and
  fiche_ref plumbing (extractDocumentTitle, searchDocuments).
* `RechercheRoute` — the fiche-formatting endpoint (parseFiche and the
  reference-deduplication step of its POST handler).
-/

/-- JS whitespace (the `\s` character class and `String.prototype.trim`):
ASCII blanks plus the Unicode space separators, NBSP, BOM and the line
separators. -/
def isJsWs (c : Char) : Bool :=
  c = ' ' || c = '\t' || c = '\n' || c = '\r' ||
  c = Char.ofNat 0x0b || c = Char.ofNat 0x0c ||
  c = Char.ofNat 0xa0 || c = Char.ofNat 0x1680 ||
  (0x2000 ≤ c.toNat && c.toNat ≤ 0x200a) ||
  c = Char.ofNat 0x2028 || c = Char.ofNat 0x2029 ||
  c = Char.ofNat 0x202f || c = Char.ofNat 0x205f ||
  c = Char.ofNat 0x3000 || c = Char.ofNat 0xfeff

/-- ASCII digit test (the `\d` character class). -/
def isDig (c : Char) : Bool := '0' ≤ c && c ≤ '9'

/-- Uppercase ASCII letter test (the `[A-Z]` character class). -/
def isUpperAZ (c : Char) : Bool := 'A' ≤ c && c ≤ 'Z'

/-- JS `toLowerCase` restricted to the Basic Latin and Latin-1 ranges the
corpus uses (A-Z and the accented capitals À-Þ except ×). -/
def jsLowerChar (c : Char) : Char :=
  if 'A' ≤ c && c ≤ 'Z' then Char.ofNat (c.toNat + 32)
  else if 0xc0 ≤ c.toNat && c.toNat ≤ 0xde && c.toNat ≠ 0xd7 then
    Char.ofNat (c.toNat + 32)
  else c

/-- JS `toUpperCase` restricted to the same ranges. -/
def jsUpperChar (c : Char) : Char :=
  if 'a' ≤ c && c ≤ 'z' then Char.ofNat (c.toNat - 32)
  else if 0xe0 ≤ c.toNat && c.toNat ≤ 0xfe && c.toNat ≠ 0xf7 then
    Char.ofNat (c.toNat - 32)
  else c

/-- `String.prototype.toLowerCase`. -/
def jsLower (l : List Char) : List Char := l.map jsLowerChar

/-- `String.prototype.toUpperCase`. -/
def jsUpper (l : List Char) : List Char := l.map jsUpperChar

/-- Left trim: drop leading JS whitespace. -/
def trimLeft (l : List Char) : List Char := l.dropWhile isJsWs

/-- `String.prototype.trim`: drop leading and trailing JS whitespace. -/
def jsTrim (l : List Char) : List Char :=
  ((l.dropWhile isJsWs).reverse.dropWhile isJsWs).reverse

/-- `String.prototype.slice(s, e)` for `0 ≤ s ≤ e` (the only shape the
sources use): the characters at indices `[s, e)`, clamped to the string. -/
def jsSlice (l : List Char) (s e : Nat) : List Char := (l.drop s).take (e - s)

/-- Substring containment, `String.prototype.includes` (also the effect
of a `%w%` ILIKE pattern once both sides are lowercased). -/
def hasSubstr (needle hay : List Char) : Bool :=
  match hay with
  | [] => needle.isEmpty
  | _ :: rest => needle.isPrefixOf hay || hasSubstr needle rest

/-- Fuelled worker for `splitWs`; every step strictly shortens the text,
so `length + 1` fuel always finishes (structural recursion on the fuel
keeps the definition kernel-computable). -/
def splitWsGo : Nat → List Char → List (List Char)
  | 0, _ => []
  | fuel + 1, l =>
    let f := l.takeWhile (fun c => !isJsWs c)
    let r := l.dropWhile (fun c => !isJsWs c)
    if r.isEmpty then [f]
    else f :: splitWsGo fuel (r.dropWhile isJsWs)

/-- `String.prototype.split(/\s+/)`: fields between maximal whitespace
runs, keeping the empty leading/trailing fields JS produces. -/
def splitWs (l : List Char) : List (List Char) := splitWsGo (l.length + 1) l

/-- `[...new Set(xs)]`: deduplicate keeping first occurrences, in order. -/
def dedupKeepFirst [DecidableEq α] (seen : List α) : List α → List α
  | [] => []
  | x :: r => if x ∈ seen then dedupKeepFirst seen r else x :: dedupKeepFirst (x :: seen) r

/-- Stable insertion step for descending sort by a rational key: `x` is
placed before the first element whose key it meets or exceeds, so earlier
input stays ahead on ties — the order V8's stable `sort((a, b) =>
b.key - a.key)` produces. -/
def insertDescBy (key : α → ℚ) (x : α) : List α → List α
  | [] => [x]
  | y :: ys => if key y ≤ key x then x :: y :: ys else y :: insertDescBy key x ys

/-- Stable descending sort by a rational key (JS `sort((a, b) =>
b.key - a.key)`, stable per the ECMAScript spec). -/
def sortDescBy (key : α → ℚ) : List α → List α
  | [] => []
  | x :: xs => insertDescBy key x (sortDescBy key xs)

namespace ImportScript

/-- Replace every `"\r\n"` with `"\n"` (the global regex replace both
cleaners start with), scanning left to right. -/
def replaceCRLF : List Char → List Char
  | '\r' :: '\n' :: rest => '\n' :: replaceCRLF rest
  | c :: rest => c :: replaceCRLF rest
  | [] => []

/-- Collapse every maximal run of at least `thresh` newlines to `keep`
newlines (the `\n{3,}` / `\n{4,}` global replaces); shorter runs and
other characters pass through unchanged. -/
def collapseNlRunsGo (thresh keep : Nat) : Nat → List Char → List Char
  | 0, _ => []
  | _, [] => []
  | fuel + 1, c :: rest =>
    if c = '\n' then
      let run := 1 + (rest.takeWhile (fun x => x = '\n')).length
      (if thresh ≤ run then List.replicate keep '\n' else List.replicate run '\n')
        ++ collapseNlRunsGo thresh keep fuel (rest.dropWhile (fun x => x = '\n'))
    else c :: collapseNlRunsGo thresh keep fuel rest

def collapseNlRuns (thresh keep : Nat) (l : List Char) : List Char :=
  collapseNlRunsGo thresh keep (l.length + 1) l

/-- Collapse every maximal whitespace run to a single space (the
`\s+ → " "` global replace of the chunk cleaner). -/
def collapseWsRunsGo : Nat → List Char → List Char
  | 0, _ => []
  | _, [] => []
  | fuel + 1, c :: rest =>
    if isJsWs c then
      ' ' :: collapseWsRunsGo fuel (rest.dropWhile isJsWs)
    else c :: collapseWsRunsGo fuel rest

def collapseWsRuns (l : List Char) : List Char := collapseWsRunsGo (l.length + 1) l

/-- Replace every maximal whitespace run of length at least 3 by two
spaces (the `\s{3,} → "  "` replace of the fiche-content cleaner);
shorter runs keep their original characters. -/
def collapseWs3Go : Nat → List Char → List Char
  | 0, _ => []
  | _, [] => []
  | fuel + 1, c :: rest =>
    if isJsWs c then
      let run := c :: rest.takeWhile isJsWs
      (if 3 ≤ run.length then [' ', ' '] else run)
        ++ collapseWs3Go fuel (rest.dropWhile isJsWs)
    else c :: collapseWs3Go fuel rest

def collapseWs3 (l : List Char) : List Char := collapseWs3Go (l.length + 1) l

/-- The `\n\s*\n\s*\n → "\n\n"` global replace of the fiche-content
cleaner.  A backtracking match starting at a newline succeeds exactly
when the maximal whitespace run from that newline contains at least
three newlines, and the greedy quantifiers make the match end at the
run's last newline; the matched stretch is replaced by two newlines and
scanning resumes after it. -/
def collapseNlWsNlGo : Nat → List Char → List Char
  | 0, _ => []
  | _, [] => []
  | fuel + 1, c :: rest =>
    if c = '\n' then
      let run := c :: rest.takeWhile isJsWs
      let nlCount := (run.filter (fun x => x = '\n')).length
      if 3 ≤ nlCount then
        '\n' :: '\n' :: collapseNlWsNlGo fuel
          ((run.reverse.takeWhile (fun x => x ≠ '\n')).reverse ++ rest.dropWhile isJsWs)
      else c :: collapseNlWsNlGo fuel rest
    else c :: collapseNlWsNlGo fuel rest

def collapseNlWsNl (l : List Char) : List Char := collapseNlWsNlGo (l.length + 1) l

def CHUNK_SIZE : Nat := 500

def CHUNK_OVERLAP : Nat := 100

/-- JS `lastIndexOf(ch, from)`: the largest index `≤ from` holding `ch`,
or `-1`; `from` past the end searches the whole string. -/
def lastIndexOfWithin (l : List Char) (ch : Char) (f : Nat) : Int :=
  match (l.take (f + 1)).reverse.findIdx? (fun x => x = ch) with
  | some k => ((l.take (f + 1)).length : Int) - 1 - k
  | none => -1

/-- One window end of `splitIntoChunks`: `start + CHUNK_SIZE`, pulled back
to just past the nearest period/newline when that break point lies beyond
the window's halfway mark (only attempted while the window end is still
inside the text). -/
def chunkWindowEnd (t : List Char) (start : Nat) : Nat :=
  let end0 := start + CHUNK_SIZE
  if end0 < t.length then
    let lastPeriod := lastIndexOfWithin t '.' end0
    let lastNewline := lastIndexOfWithin t '\n' end0
    let breakPoint := max lastPeriod lastNewline
    if ((start + CHUNK_SIZE / 2 : Nat) : Int) < breakPoint then breakPoint.toNat + 1
    else end0
  else end0

/-- Every window ends more than one overlap past its start, so the loop
advances. -/
theorem chunkWindowEnd_gt (t : List Char) (start : Nat) :
    start + CHUNK_OVERLAP < chunkWindowEnd t start := by
  unfold chunkWindowEnd CHUNK_OVERLAP CHUNK_SIZE
  dsimp only
  split
  · split
    · next hbp =>
      omega
    · omega
  · omega

/-- Fuelled worker for the `splitIntoChunks` while loop; every iteration
moves `start` forward by more than `CHUNK_OVERLAP`, so `t.length + 1`
fuel always finishes. -/
def chunkSpansGo (t : List Char) : Nat → Nat → List (Nat × Nat)
  | 0, _ => []
  | fuel + 1, start =>
    if start < t.length then
      let e := chunkWindowEnd t start
      (start, e) :: chunkSpansGo t fuel (e - CHUNK_OVERLAP)
    else []

/-- The window `(start, end)` pairs of the `splitIntoChunks` while loop. -/
def chunkSpans (t : List Char) (start : Nat) : List (Nat × Nat) :=
  chunkSpansGo t (t.length + 1) start

/-- The cleaned text of `splitIntoChunks`: CRLF normalised, 3+ newlines
collapsed to 2, every whitespace run collapsed to one space, trimmed. -/
def cleanChunksText (text : List Char) : List Char :=
  jsTrim (collapseWsRuns (collapseNlRuns 3 2 (replaceCRLF text)))

/-- `splitIntoChunks`: greedy windows over the cleaned text; each window's
trimmed slice is kept only when longer than 50 characters. -/
def splitIntoChunks (text : List Char) : List (List Char) :=
  let cleanedText := cleanChunksText text
  (chunkSpans cleanedText 0).filterMap (fun se =>
    if 50 < (jsTrim (jsSlice cleanedText se.1 se.2)).length then
      some (jsTrim (jsSlice cleanedText se.1 se.2))
    else none)

/-- Metadata captured by the PSE header pattern
`\[(\d{2})(AC|PR|FT)(\d+)\s*\/\s*(\d{2})-(\d{4})\]`. -/
structure PSEHeader where
  chapter : List Char
  ficheType : List Char
  ficheNumber : List Char
  month : List Char
  year : List Char
deriving DecidableEq

/-- Consume one expected character. -/
def expectChr (c : Char) : List Char → Option (List Char)
  | x :: r => if x = c then some r else none
  | [] => none

/-- Consume exactly `n` ASCII digits. -/
def expectDigits (n : Nat) (l : List Char) : Option (List Char × List Char) :=
  let d := l.take n
  if d.length = n && d.all isDig then some (d, l.drop n) else none

/-- Consume one of the literal alternatives `AC|PR|FT`. -/
def expectType : List Char → Option (List Char × List Char)
  | a :: b :: r =>
    if (a = 'A' && b = 'C') || (a = 'P' && b = 'R') || (a = 'F' && b = 'T') then
      some ([a, b], r)
    else none
  | _ => none

/-- Consume one or more ASCII digits, greedily (`\d+`). -/
def takeDigits1 (l : List Char) : Option (List Char × List Char) :=
  let d := l.takeWhile isDig
  if d.isEmpty then none else some (d, l.dropWhile isDig)

/-- Attempt the PSE header pattern at the head of `l`; on success, return
the captured groups and the unconsumed suffix.  The pattern has no
backtracking: every quantified piece (`\d+`, `\s*`) is over a character
class disjoint from its follower. -/
def matchHeaderAt (l : List Char) : Option (PSEHeader × List Char) :=
  (expectChr '[' l).bind fun r1 =>
  (expectDigits 2 r1).bind fun p2 =>
  (expectType p2.2).bind fun p3 =>
  (takeDigits1 p3.2).bind fun p4 =>
  (expectChr '/' (p4.2.dropWhile isJsWs)).bind fun r6 =>
  (expectDigits 2 (r6.dropWhile isJsWs)).bind fun p8 =>
  (expectChr '-' p8.2).bind fun r9 =>
  (expectDigits 4 r9).bind fun p10 =>
  (expectChr ']' p10.2).bind fun r11 =>
  some (⟨p2.1, p3.1, p4.1, p8.1, p10.1⟩, r11)

theorem expectChr_suffix {c : Char} {l r : List Char} (h : expectChr c l = some r) :
    r.Sublist l ∧ r.length < l.length := by
  cases l with
  | nil => simp [expectChr] at h
  | cons x xs =>
    simp only [expectChr] at h
    split at h
    · injection h with h2
      subst h2
      exact ⟨(List.sublist_cons_self x xs), by simp⟩
    · cases h

theorem expectDigits_suffix {n : Nat} {l d r : List Char}
    (h : expectDigits n l = some (d, r)) : r.Sublist l := by
  simp only [expectDigits] at h
  split at h
  · cases h; exact List.drop_sublist n l
  · cases h

theorem expectType_suffix {l d r : List Char} (h : expectType l = some (d, r)) :
    r.Sublist l := by
  match l with
  | [] => simp [expectType] at h
  | [a] => simp [expectType] at h
  | a :: b :: rest =>
    simp only [expectType] at h
    split at h
    · injection h with h2
      injection h2 with h3 h4
      subst h4
      exact (List.sublist_cons_self b rest).trans (List.sublist_cons_self a (b :: rest))
    · cases h

theorem takeDigits1_suffix {l d r : List Char} (h : takeDigits1 l = some (d, r)) :
    r.Sublist l := by
  simp only [takeDigits1] at h
  split at h
  · cases h
  · cases h; exact List.dropWhile_sublist _

theorem matchHeaderAt_suffix {l rem : List Char} {h : PSEHeader}
    (hm : matchHeaderAt l = some (h, rem)) : rem.Sublist l ∧ rem.length < l.length := by
  simp only [matchHeaderAt, Option.bind_eq_some] at hm
  obtain ⟨r1, h1, p2, h2, p3, h3, p4, h4, r6, h6, p8, h8, r9, h9, p10, h10, r11, h11, heq⟩ := hm
  cases heq
  have s1 := expectChr_suffix h1
  have s2 := expectDigits_suffix h2
  have s3 := expectType_suffix h3
  have s4 := takeDigits1_suffix h4
  have s5 : (p4.2.dropWhile isJsWs).Sublist p4.2 := List.dropWhile_sublist _
  have s6 := expectChr_suffix h6
  have s7 : (r6.dropWhile isJsWs).Sublist r6 := List.dropWhile_sublist _
  have s8 := expectDigits_suffix h8
  have s9 := expectChr_suffix h9
  have s10 := expectDigits_suffix h10
  have s11 := expectChr_suffix h11
  have hsub : rem.Sublist r1 :=
    (((((((((s11.1.trans s10).trans s9.1).trans s8).trans s7).trans s6.1).trans
      s5).trans s4).trans s3).trans s2)
  exact ⟨hsub.trans s1.1, lt_of_le_of_lt hsub.length_le s1.2⟩

/-- A header match together with its start offset and consumed length. -/
structure PSEMatch where
  idx : Nat
  header : PSEHeader
  len : Nat
deriving DecidableEq

/-- The `regex.exec` loop of `splitIntoPSEFiches`: scan left to right,
recording each non-overlapping header match with its start index, and
resume scanning right after a match (the `g`-flag `lastIndex`). -/
def findMatchesAuxGo : Nat → List Char → Nat → List PSEMatch
  | 0, _, _ => []
  | _, [], _ => []
  | fuel + 1, c :: rest, i =>
    match matchHeaderAt (c :: rest) with
    | some (h, rem) =>
      ⟨i, h, (c :: rest).length - rem.length⟩ ::
        findMatchesAuxGo fuel rem (i + ((c :: rest).length - rem.length))
    | none => findMatchesAuxGo fuel rest (i + 1)

def findMatchesAux (l : List Char) (i : Nat) : List PSEMatch :=
  findMatchesAuxGo (l.length + 1) l i

/-- The cleaned text of `splitIntoPSEFiches`: CRLF normalised, 4+ newlines
collapsed to 3, trimmed. -/
def cleanFichesText (text : List Char) : List Char :=
  jsTrim (collapseNlRuns 4 3 (replaceCRLF text))

/-- All fiche-header matches of the cleaned text, in order of appearance. -/
def findPSEMatches (cleaned : List Char) : List PSEMatch :=
  findMatchesAux cleaned 0

/-- Test for `PSE\s*[x1 x2]` at the head of the text, case-insensitively. -/
def pseMarkAt (x1 x2 : Char) (l : List Char) : Bool :=
  match l with
  | p :: s :: e :: r =>
    jsLowerChar p = 'p' && jsLowerChar s = 's' && jsLowerChar e = 'e' &&
      (match r.dropWhile isJsWs with
       | x :: _ => x = x1 || x = x2
       | [] => false)
  | _ => false

/-- Search for `PSE\s*[x1 x2]` anywhere in the text. -/
def hasPseMark (x1 x2 : Char) (l : List Char) : Bool :=
  match l with
  | [] => false
  | _ :: rest => pseMarkAt x1 x2 l || hasPseMark x1 x2 rest

/-- `detectPSELevel`: level 1 on `PSE\s*[①1]` (tested first), else level 2
on `PSE\s*[②2]`, else none. -/
def detectPSELevel (text : List Char) : Option Nat :=
  if hasPseMark '①' '1' text then some 1
  else if hasPseMark '②' '2' text then some 2
  else none

/-- The `CHAPTER_NAMES` lookup table. -/
def CHAPTER_NAMES : List (List Char × List Char) :=
  [("01".data, "Attitude et comportement".data),
   ("02".data, "Bilans".data),
   ("03".data, "Protection et sécurité".data),
   ("04".data, "Hygiène et asepsie".data),
   ("05".data, "Urgences vitales".data),
   ("06".data, "Malaises et affections".data),
   ("07".data, "Atteintes circonstancielles".data),
   ("08".data, "Traumatismes".data),
   ("09".data, "Souffrance psychique".data),
   ("10".data, "Relevage et brancardage".data),
   ("11".data, "Situations à nombreuses victimes".data),
   ("12".data, "Divers".data)]

/-- The `FICHE_TYPES` lookup table. -/
def FICHE_TYPES : List (List Char × List Char) :=
  [("AC".data, "Apport de Connaissances".data),
   ("PR".data, "Procédure".data),
   ("FT".data, "Fiche Technique".data)]

/-- A parsed PSE fiche with its extracted metadata. -/
structure PSEFiche where
  content : List Char
  chapter : List Char
  chapterName : List Char
  ficheType : List Char
  ficheTypeName : List Char
  ficheRef : List Char
  ficheNumber : List Char
  updateDate : List Char
  pseLevel : Option Nat
deriving DecidableEq

/-- Build one fiche per match: the raw span runs from this match's start
to the next match's start (or end of text), is trimmed, has its level
detected in its first 200 characters, and is then whitespace-normalised. -/
def buildFiches (cleaned : List Char) : List PSEMatch → List PSEFiche
  | [] => []
  | m :: rest =>
    let endIndex := match rest with
      | m2 :: _ => m2.idx
      | [] => cleaned.length
    let raw := jsTrim (jsSlice cleaned m.idx endIndex)
    let pseLevel := detectPSELevel (raw.take 200)
    let content := jsTrim (collapseNlWsNl (collapseWs3 raw))
    { content := content,
      chapter := m.header.chapter,
      chapterName :=
        (CHAPTER_NAMES.lookup m.header.chapter).getD
          ("Chapitre ".data ++ m.header.chapter),
      ficheType := m.header.ficheType,
      ficheTypeName := (FICHE_TYPES.lookup m.header.ficheType).getD m.header.ficheType,
      ficheRef := m.header.chapter ++ m.header.ficheType ++ m.header.ficheNumber,
      ficheNumber := m.header.ficheNumber,
      updateDate := m.header.month ++ '-' :: m.header.year,
      pseLevel := pseLevel } :: buildFiches cleaned rest

/-- `splitIntoPSEFiches`: clean the text, find all header matches, build
one fiche per match. -/
def splitIntoPSEFiches (text : List Char) : List PSEFiche :=
  buildFiches (cleanFichesText text) (findPSEMatches (cleanFichesText text))

end ImportScript

namespace ChatRoute

/-- A row as the two lexical passes select it (`id, content, source`). -/
structure RawDoc where
  id : Nat
  content : List Char
  source : List Char
deriving DecidableEq

/-- The route's `DocumentMatch` shape. -/
structure DocumentMatch where
  id : Nat
  content : List Char
  source : List Char
  similarity : ℚ
deriving DecidableEq

/-- The route's stop-word list. -/
def stopWords : List (List Char) :=
  (["quoi", "que", "faire", "comment", "quel", "quelle", "quels", "quelles",
    "est", "sont", "cas", "pour", "dans", "avec", "sans", "lors", "une",
    "qui", "les", "des", "aux"] : List String).map String.data

/-- `allKeywords`: words longer than 2 from both lowercased queries,
first occurrences kept (the `[...new Set(...)]`). -/
def allKeywordsOf (query originalQuery : List Char) : List (List Char) :=
  dedupKeepFirst []
    ((splitWs (jsLower query)).filter (fun w => 2 < w.length) ++
     (splitWs (jsLower originalQuery)).filter (fun w => 2 < w.length))

/-- `keyWords`: significant words of the original query (longer than 2,
not stop words). -/
def keyWordsOf (originalQuery : List Char) : List (List Char) :=
  (splitWs (jsLower originalQuery)).filter
    (fun w => 2 < w.length && !stopWords.contains w)

/-- Scoring of one conjunctive-pass hit: base 0.85, plus 0.12 exactly when
the content contains the protocol marker "en présence", capped at 0.99. -/
def scoreExactDoc (doc : RawDoc) : DocumentMatch :=
  let contentLower := jsLower doc.content
  let score : ℚ :=
    if hasSubstr ("en présence".data) contentLower then 85/100 + 12/100 else 85/100
  ⟨doc.id, doc.content, doc.source, min score (99/100)⟩

/-- Scoring of one disjunctive-pass hit: 0.4 plus 0.4 times the fraction
of all keywords present in the content, capped at 0.8. -/
def scoreTextDoc (allKeywords : List (List Char)) (doc : RawDoc) : DocumentMatch :=
  let contentLower := jsLower doc.content
  let matchCount := (allKeywords.filter (fun k => hasSubstr k contentLower)).length
  let score : ℚ := 4/10 + ((matchCount : ℚ) / (max allKeywords.length 1 : Nat)) * (4/10)
  ⟨doc.id, doc.content, doc.source, min score (8/10)⟩

/-- The conjunctive ("exact phrase") pass runs only with at least two
significant words; its store rows arrive as `exactData` (`none` models a
query error, skipping the pass). -/
def exactPhraseResultsOf (exactData : Option (List RawDoc)) (originalQuery : List Char) :
    List DocumentMatch :=
  if 2 ≤ (keyWordsOf originalQuery).length then (exactData.getD []).map scoreExactDoc
  else []

/-- The disjunctive ("textual") pass runs only with at least one keyword
longer than 3. -/
def textResultsOf (textData : Option (List RawDoc)) (query originalQuery : List Char) :
    List DocumentMatch :=
  let allKeywords := allKeywordsOf query originalQuery
  if (allKeywords.filter (fun k => 3 < k.length)) ≠ [] then
    (textData.getD []).map (scoreTextDoc allKeywords)
  else []

/-- The dedup loop: first occurrence of each id wins, later ones dropped. -/
def dedupById (seen : List Nat) : List DocumentMatch → List DocumentMatch
  | [] => []
  | d :: rest =>
    if d.id ∈ seen then dedupById seen rest
    else d :: dedupById (d.id :: seen) rest

/-- The external world of one `searchDocuments` call: whether
`generateEmbedding` succeeded (it throws otherwise), and the rows each
store query returned (`none` models that query's in-band error). -/
structure Env where
  embedOk : Bool
  vectorResults : Option (List DocumentMatch)
  exactData : Option (List RawDoc)
  textData : Option (List RawDoc)

/-- The post-merge source filter predicate (case-insensitive substring). -/
def keepSource (f : List Char) (d : DocumentMatch) : Bool :=
  hasSubstr (jsUpper f) (jsUpper d.source)

/-- The merged, deduplicated result list (step 4 of the route). -/
def combinedResultsOf (env : Env) (query originalQuery : List Char) : List DocumentMatch :=
  dedupById []
    (exactPhraseResultsOf env.exactData originalQuery ++
     env.vectorResults.getD [] ++
     textResultsOf env.textData query originalQuery)

/-- `searchDocuments` of the chat route: an embedding failure throws
inside the `try`, so the surrounding catch returns `[]`; otherwise merge,
dedup, filter by source, sort by descending similarity, keep 8. -/
def searchDocuments (env : Env) (query originalQuery : List Char)
    (sourceFilter : Option (List Char)) : List DocumentMatch :=
  if env.embedOk = false then []
  else
    let combined := combinedResultsOf env query originalQuery
    let filtered :=
      match sourceFilter with
      | some f => combined.filter (keepSource f)
      | none => combined
    (sortDescBy (fun d => d.similarity) filtered).take 8

/-- `reformulateQuery`: the LLM reply (`.ok (some text)`), an untyped
reply (`.ok none`), or a thrown error (`.error`); both failure shapes
fall back to the original question. -/
def reformulateQuery (question : List Char) (llm : Except Unit (Option (List Char))) :
    List Char :=
  match llm with
  | .error _ => question
  | .ok none => question
  | .ok (some t) => jsTrim t

end ChatRoute

namespace ChatRouteV2

/-- A row as the conjunctive pass selects it (includes `fiche_ref`). -/
structure RawDoc where
  id : Nat
  content : List Char
  source : List Char
  fiche_ref : Option (List Char)
deriving DecidableEq

/-- This route variant's `DocumentMatch` shape (with `fiche_ref`). -/
structure DocumentMatch where
  id : Nat
  content : List Char
  source : List Char
  similarity : ℚ
  fiche_ref : Option (List Char)
deriving DecidableEq

/-- This variant's stop-word list. -/
def stopWords : List (List Char) :=
  (["quoi", "que", "faire", "comment", "quel", "quelle", "est", "sont",
    "cas", "pour", "dans", "avec", "sans", "lors", "une", "qui", "les",
    "des", "aux", "tenir", "face", "conduite"] : List String).map String.data

/-- `keyWords`: significant words of the original query (longer than 3,
not stop words). -/
def keyWordsOf (originalQuery : List Char) : List (List Char) :=
  (splitWs (jsLower originalQuery)).filter
    (fun w => 3 < w.length && !stopWords.contains w)

/-- Attempt `pse[①②]?\s+(.+)` at the head of the (already lowercased)
line; on success return the captured group.  When the line ends in the
whitespace run, the trailing `.+` backtracks into it and captures its
last character. -/
def titleMatchAt (l : List Char) : Option (List Char) :=
  match l with
  | p :: s :: e :: r =>
    if p = 'p' && s = 's' && e = 'e' then
      let r2 := match r with
        | g :: r' => if g = '①' || g = '②' then r' else r
        | [] => r
      let w := r2.takeWhile isJsWs
      let t := r2.dropWhile isJsWs
      if w.isEmpty then none
      else if t.isEmpty then
        if 2 ≤ w.length then
          match w.reverse with
          | c :: _ => some [c]
          | [] => none
        else none
      else some t
    else none
  | _ => none

/-- Leftmost search for `pse[①②]?\s+(.+)`. -/
def titleSearch (l : List Char) : Option (List Char) :=
  match l with
  | [] => none
  | _ :: rest =>
    match titleMatchAt l with
    | some t => some t
    | none => titleSearch rest

/-- `extractDocumentTitle`: the lowercased first line; if it contains a
`pse` marker, the trimmed text after the marker, else the line itself. -/
def extractDocumentTitle (content : List Char) : List Char :=
  let firstLine := jsLower (content.takeWhile (fun c => c ≠ '\n'))
  match titleSearch firstLine with
  | some t => jsTrim t
  | none => firstLine

/-- Scoring of one conjunctive-pass hit: 0.75 plus 0.2 times the fraction
of the significant keywords present in the content. -/
def scoreExactDoc (keyWords : List (List Char)) (doc : RawDoc) : DocumentMatch :=
  let contentLower := jsLower doc.content
  let matchCount := (keyWords.filter (fun k => hasSubstr k contentLower)).length
  ⟨doc.id, doc.content, doc.source,
    75/100 + ((matchCount : ℚ) / (keyWords.length : ℚ)) * (2/10), doc.fiche_ref⟩

/-- `relevanceKeywords`: words of the original query longer than 4. -/
def relevanceKeywordsOf (originalQuery : List Char) : List (List Char) :=
  (splitWs (jsLower originalQuery)).filter (fun w => 4 < w.length)

/-- Whether some relevance keyword occurs in the record's embedded title. -/
def isOnTopic (rks : List (List Char)) (d : DocumentMatch) : Bool :=
  rks.any (fun k => hasSubstr k (extractDocumentTitle d.content))

/-- The relevance gate: off-topic records below the 0.9 near-certainty
threshold have their similarity multiplied by 0.4. -/
def applyGate (rks : List (List Char)) (d : DocumentMatch) : DocumentMatch :=
  if !isOnTopic rks d && d.similarity < 9/10 then
    { d with similarity := d.similarity * (4/10) }
  else d

/-- The dedup loop of this variant: first occurrence of each id wins, and
each newly seen record passes through the relevance gate. -/
def dedupGate (rks : List (List Char)) (seen : List Nat) :
    List DocumentMatch → List DocumentMatch
  | [] => []
  | d :: rest =>
    if d.id ∈ seen then dedupGate rks seen rest
    else applyGate rks d :: dedupGate rks (d.id :: seen) rest

/-- The external world of one call (this variant has no third pass). -/
structure Env where
  embedOk : Bool
  vectorResults : Option (List DocumentMatch)
  exactData : Option (List RawDoc)

/-- The conjunctive pass runs with at least one significant keyword. -/
def exactResultsOf (exactData : Option (List RawDoc)) (originalQuery : List Char) :
    List DocumentMatch :=
  if 1 ≤ (keyWordsOf originalQuery).length then
    (exactData.getD []).map (scoreExactDoc (keyWordsOf originalQuery))
  else []

/-- Both passes concatenated, conjunctive pass first. -/
def allResultsOf (env : Env) (originalQuery : List Char) : List DocumentMatch :=
  exactResultsOf env.exactData originalQuery ++ env.vectorResults.getD []

/-- `searchDocuments` of this variant: merge, dedup with relevance
gating, filter by source, sort descending, keep 6. -/
def searchDocuments (env : Env) (query originalQuery : List Char)
    (sourceFilter : Option (List Char)) : List DocumentMatch :=
  if env.embedOk = false then []
  else
    let combined := dedupGate (relevanceKeywordsOf originalQuery) [] (allResultsOf env originalQuery)
    let filtered :=
      match sourceFilter with
      | some f => combined.filter (fun d => hasSubstr (jsUpper f) (jsUpper d.source))
      | none => combined
    (sortDescBy (fun d => d.similarity) filtered).take 6

end ChatRouteV2

namespace RechercheRoute

/-- A matched record handed to the fiche formatter. -/
structure DocumentMatch where
  id : Nat
  content : List Char
  source : List Char
  similarity : ℚ
  fiche_ref : Option (List Char)
deriving DecidableEq

/-- The `ParsedFiche` view object; `type` holds one of the literals
`AC | FT | PR | unknown` of the TypeScript union. -/
structure ParsedFiche where
  ref : List Char
  type : List Char
  typeName : List Char
  title : List Char
  date : List Char
  level : List Char
  content : List Char
  source : List Char
deriving DecidableEq

/-- Leftmost `\[([^\]]+)\]` search: the first `[` followed by at least
one non-`]` character and a closing `]`; returns the capture and the
text after the bracket. -/
def bracketSearch (l : List Char) : Option (List Char × List Char) :=
  match l with
  | [] => none
  | '[' :: r =>
    let g := r.takeWhile (fun c => c ≠ ']')
    let rest := r.dropWhile (fun c => c ≠ ']')
    match rest with
    | ']' :: after => if g.isEmpty then bracketSearch r else some (g, after)
    | _ => bracketSearch r
  | _ :: r => bracketSearch r

/-- Case-insensitive character comparison (the regex `i` flag). -/
def lowerEq (a b : Char) : Bool := jsLowerChar a = jsLowerChar b

/-- Attempt the alternation `PSE[①②]?|PSC[①]?|SST` (case-insensitive) at
the head of the text; the matched characters keep their original case. -/
def matchLevelToken (l : List Char) : Option (List Char × List Char) :=
  match l with
  | a :: b :: c :: r =>
    if lowerEq a 'P' && lowerEq b 'S' && lowerEq c 'E' then
      match r with
      | g :: r' => if g = '①' || g = '②' then some ([a, b, c, g], r') else some ([a, b, c], r)
      | [] => some ([a, b, c], [])
    else if lowerEq a 'P' && lowerEq b 'S' && lowerEq c 'C' then
      match r with
      | g :: r' => if g = '①' then some ([a, b, c, g], r') else some ([a, b, c], r)
      | [] => some ([a, b, c], [])
    else if lowerEq a 'S' && lowerEq b 'S' && lowerEq c 'T' then some ([a, b, c], r)
    else none
  | _ => none

/-- The first-line header match
`\[([^\]]+)\]\s*(PSE[①②]?|PSC[①]?|SST)?\s*(.+)?` with `i` flag: returns
(bracket capture, level token or empty, remainder-as-group-3). -/
def headerMatchOf (firstLine : List Char) : Option (List Char × List Char × List Char) :=
  match bracketSearch firstLine with
  | none => none
  | some (g1, after) =>
    let r2 := after.dropWhile isJsWs
    match matchLevelToken r2 with
    | some (tok, r3) => some (g1, tok, r3.dropWhile isJsWs)
    | none => some (g1, [], r2)

/-- Attempt `\d{2}[A-Z]{2}\d{2}` at the head of the text. -/
def refCoreAt (l : List Char) : Option (List Char × List Char) :=
  match l with
  | a :: b :: c :: d :: e :: f :: r =>
    if isDig a && isDig b && isUpperAZ c && isUpperAZ d && isDig e && isDig f then
      some ([a, b, c, d, e, f], r)
    else none
  | _ => none

/-- Attempt `\d{2}-\d{4}` at the head of the text. -/
def dateAt (l : List Char) : Option (List Char) :=
  match l with
  | a :: b :: h :: c :: d :: e :: f :: _ =>
    if isDig a && isDig b && h = '-' && isDig c && isDig d && isDig e && isDig f then
      some [a, b, h, c, d, e, f]
    else none
  | _ => none

/-- Leftmost search for `(\d{2}[A-Z]{2}\d{2})\s*\/?\s*(\d{2}-\d{4})?`:
returns the reference and the (possibly empty) date capture. -/
def refSearch (l : List Char) : Option (List Char × List Char) :=
  match l with
  | [] => none
  | _ :: rest =>
    match refCoreAt l with
    | some (ref, r) =>
      let r2 := r.dropWhile isJsWs
      let r3 := match r2 with
        | '/' :: t => t
        | _ => r2
      some (ref, (dateAt (r3.dropWhile isJsWs)).getD [])
    | none => refSearch rest

/-- Leftmost search for `\d{2}([A-Z]{2})\d{2}` (the type-code capture). -/
def typeCodeSearch (l : List Char) : Option (List Char) :=
  match l with
  | [] => none
  | _ :: rest =>
    match refCoreAt l with
    | some (r6, _) => some ((r6.drop 2).take 2)
    | none => typeCodeSearch rest

/-- The `_+ → " "` global replace of the title cleanup. -/
def collapseUnderscoresGo : Nat → List Char → List Char
  | 0, _ => []
  | _, [] => []
  | fuel + 1, '_' :: rest => ' ' :: collapseUnderscoresGo fuel (rest.dropWhile (fun c => c = '_'))
  | fuel + 1, c :: rest => c :: collapseUnderscoresGo fuel rest

def collapseUnderscores (l : List Char) : List Char :=
  collapseUnderscoresGo (l.length + 1) l

/-- The `\s+\d+\s*$ → ""` replace of the title cleanup: strip a trailing
page number (whitespace, digits, optional whitespace at end of string). -/
def stripTrailingPageNum (t : List Char) : List Char :=
  let r1 := t.reverse.dropWhile isJsWs
  let r2 := r1.dropWhile isDig
  if r2.length < r1.length then
    match r2 with
    | c :: _ => if isJsWs c then (r2.dropWhile isJsWs).reverse else t
    | [] => t
  else t

/-- The full title cleanup chain of `parseFiche`. -/
def cleanTitle (title : List Char) : List Char :=
  jsTrim (ImportScript.collapseWsRuns (stripTrailingPageNum (collapseUnderscores title)))

/-- The first line of a record's content (`content.split("\n")[0]`). -/
def firstLineOf (content : List Char) : List Char :=
  content.takeWhile (fun c => c ≠ '\n')

/-- The body after the first line (`lines.slice(1).join("\n")`). -/
def afterFirstLine (l : List Char) : List Char :=
  match l.dropWhile (fun c => c ≠ '\n') with
  | _ :: rest => rest
  | [] => []

/-- `parseFiche`: recover reference, type, title, date and level from a
record's first line (falling back to the stored `fiche_ref`), strip the
header line from the body. -/
def parseFiche (doc : DocumentMatch) : ParsedFiche :=
  let firstLine := firstLineOf doc.content
  let ref0 := doc.fiche_ref.getD []
  let hm := headerMatchOf firstLine
  let refDate : List Char × List Char :=
    match hm with
    | some (g1, _, _) =>
      match refSearch g1 with
      | some rd => rd
      | none => (ref0, [])
    | none => (ref0, [])
  let level : List Char :=
    match hm with
    | some (_, tok, _) => tok
    | none => []
  let title0 : List Char :=
    match hm with
    | some (_, _, g3) => jsTrim g3
    | none => []
  let title := cleanTitle title0
  let typeAndName : List Char × List Char :=
    match typeCodeSearch refDate.1 with
    | some tc =>
      if tc = "AC".data then ("AC".data, "Connaissance".data)
      else if tc = "FT".data then ("FT".data, "Fiche Technique".data)
      else if tc = "PR".data then ("PR".data, "Procédure".data)
      else ("unknown".data, "Document".data)
    | none => ("unknown".data, "Document".data)
  { ref := refDate.1,
    type := typeAndName.1,
    typeName := typeAndName.2,
    title := if title = [] then "Document".data else title,
    date := refDate.2,
    level := level.map (fun c => if c = '①' then '1' else if c = '②' then '2' else c),
    content := jsTrim (afterFirstLine doc.content),
    source := doc.source }

/-- The POST handler's reference-deduplication filter: a fiche with a
non-empty reference already seen is dropped, a fiche with a new non-empty
reference is kept and recorded, a fiche with an empty reference is always
kept. -/
def dedupByRef (seen : List (List Char)) : List ParsedFiche → List ParsedFiche
  | [] => []
  | f :: rest =>
    if f.ref ≠ [] && f.ref ∈ seen then dedupByRef seen rest
    else if f.ref ≠ [] then f :: dedupByRef (f.ref :: seen) rest
    else f :: dedupByRef seen rest

/-- Steps 3–4 of the POST handler: parse every matched record, then
deduplicate by reference keeping first occurrences. -/
def uniqueFichesOf (docs : List DocumentMatch) : List ParsedFiche :=
  dedupByRef [] (docs.map parseFiche)

end RechercheRoute

theorem mem_insertDescBy (key : α → ℚ) (x : α) (l : List α) (a : α) :
    a ∈ insertDescBy key x l ↔ a = x ∨ a ∈ l := by
  induction l with
  | nil => simp [insertDescBy]
  | cons y ys ih =>
    simp only [insertDescBy]
    split
    · simp [List.mem_cons]
    · simp only [List.mem_cons, ih]
      tauto

theorem pairwise_insertDescBy (key : α → ℚ) (x : α) (l : List α)
    (h : l.Pairwise (fun a b => key b ≤ key a)) :
    (insertDescBy key x l).Pairwise (fun a b => key b ≤ key a) := by
  induction l with
  | nil => simp [insertDescBy]
  | cons y ys ih =>
    rw [List.pairwise_cons] at h
    simp only [insertDescBy]
    split
    · next hyx =>
      refine List.Pairwise.cons ?_ (List.Pairwise.cons h.1 h.2)
      intro b hb
      rcases List.mem_cons.mp hb with rfl | hb
      · exact hyx
      · exact (h.1 b hb).trans hyx
    · next hyx =>
      refine List.Pairwise.cons ?_ (ih h.2)
      intro b hb
      rcases (mem_insertDescBy key x ys b).mp hb with rfl | hb
      · exact le_of_lt (lt_of_not_le hyx)
      · exact h.1 b hb

theorem pairwise_sortDescBy (key : α → ℚ) (l : List α) :
    (sortDescBy key l).Pairwise (fun a b => key b ≤ key a) := by
  induction l with
  | nil => exact List.Pairwise.nil
  | cons x xs ih => exact pairwise_insertDescBy key x _ ih

theorem mem_sortDescBy (key : α → ℚ) (l : List α) (a : α) :
    a ∈ sortDescBy key l ↔ a ∈ l := by
  induction l with
  | nil => simp [sortDescBy]
  | cons x xs ih =>
    simp only [sortDescBy, mem_insertDescBy, ih, List.mem_cons]

namespace ChatRoute

theorem dedupById_filter_nil (x : Nat) (l : List DocumentMatch) :
    ∀ seen : List Nat, x ∈ seen →
      (dedupById seen l).filter (fun d => d.id == x) = [] := by
  induction l with
  | nil => intro seen _; simp [dedupById]
  | cons d rest ih =>
    intro seen hx
    simp only [dedupById]
    split
    · exact ih seen hx
    · next hd =>
      have hne : (d.id == x) = false :=
        beq_eq_false_iff_ne.mpr (fun he => hd (he ▸ hx))
      simp [List.filter_cons, hne, ih (d.id :: seen) (List.mem_cons_of_mem _ hx)]

theorem dedupById_filter_first (x : Nat) (l : List DocumentMatch) :
    ∀ seen : List Nat, x ∉ seen →
      (dedupById seen l).filter (fun d => d.id == x) =
        (l.find? (fun d => d.id == x)).toList := by
  induction l with
  | nil => intro seen _; simp [dedupById]
  | cons d rest ih =>
    intro seen hx
    simp only [dedupById]
    split
    · next hd =>
      have hne : (d.id == x) = false :=
        beq_eq_false_iff_ne.mpr (fun he => hx (he ▸ hd))
      rw [List.find?_cons_of_neg _ (by simp [hne])]
      exact ih seen hx
    · next hd =>
      by_cases he : d.id = x
      · subst he
        rw [List.find?_cons_of_pos _ (by simp)]
        simp [List.filter_cons,
          dedupById_filter_nil d.id rest (d.id :: seen) (List.mem_cons_self _ _)]
      · rw [List.find?_cons_of_neg _ (by simp [he])]
        simp only [List.filter_cons, show (d.id == x) = false by simp [he]]
        exact ih (d.id :: seen) (by simp [he, hx]; intro hc; exact absurd hc.symm he)

end ChatRoute

/-- C2: in the chat route's merge, an identity already delivered by the
conjunctive lexical pass appears in the deduplicated merged output
exactly once, as the lexical pass's record (its score included); the
vector pass's record for the same identity is dropped. -/
theorem c2_merge_precedence (env : ChatRoute.Env) (query originalQuery : List Char)
    (x : Nat) (d0 : ChatRoute.DocumentMatch)
    (h : (ChatRoute.exactPhraseResultsOf env.exactData originalQuery).find?
          (fun d => d.id == x) = some d0) :
    (ChatRoute.combinedResultsOf env query originalQuery).filter
      (fun d => d.id == x) = [d0] := by
  unfold ChatRoute.combinedResultsOf
  rw [ChatRoute.dedupById_filter_first x _ [] (by simp)]
  rw [List.append_assoc, List.find?_append, h]
  rfl

unseal Rat.add Rat.mul Rat.inv Rat.sub in
/-- Witness for C2, the spec's scenario: lexical hit id 7 at 0.85 merged
with vector hits id 7 at 0.30 and id 9 at 0.60 keeps id 7 once at 0.85,
and the route's final output is exactly id 7 at 0.85 then id 9 at 0.60. -/
theorem c2_merge_precedence_witness :
    (ChatRoute.combinedResultsOf
        ⟨true,
         some [⟨7, "c7".data, "s".data, 3/10⟩, ⟨9, "c9".data, "s".data, 6/10⟩],
         some [⟨7, "hemorragie externe contenu".data, "s".data⟩],
         some []⟩
        ("hemorragie compression".data) ("hemorragie externe".data)).filter
      (fun d => d.id == 7) =
      [⟨7, "hemorragie externe contenu".data, "s".data, 17/20⟩] ∧
    ChatRoute.searchDocuments
        ⟨true,
         some [⟨7, "c7".data, "s".data, 3/10⟩, ⟨9, "c9".data, "s".data, 6/10⟩],
         some [⟨7, "hemorragie externe contenu".data, "s".data⟩],
         some []⟩
        ("hemorragie compression".data) ("hemorragie externe".data) none =
      [⟨7, "hemorragie externe contenu".data, "s".data, 17/20⟩,
       ⟨9, "c9".data, "s".data, 6/10⟩] :=
  ⟨c2_merge_precedence _ _ _ 7 _ (by decide), by decide⟩

/-- Auxiliary for C9: any record the chat route returns under a source
filter passes the case-insensitive substring test. -/
theorem mem_searchDocuments_keepSource (env : ChatRoute.Env) (q oq f : List Char)
    (d : ChatRoute.DocumentMatch)
    (h : d ∈ ChatRoute.searchDocuments env q oq (some f)) :
    hasSubstr (jsUpper f) (jsUpper d.source) = true := by
  unfold ChatRoute.searchDocuments at h
  split at h
  · simp at h
  · have h1 : d ∈ sortDescBy (fun d => d.similarity)
        ((ChatRoute.combinedResultsOf env q oq).filter (ChatRoute.keepSource f)) :=
      List.take_subset _ _ h
    have h2 := (mem_sortDescBy _ _ _).mp h1
    simpa [ChatRoute.keepSource] using List.of_mem_filter h2

/-- C8: for every environment, query pair and optional filter, hybrid
search returns at most K records (8 for the chat route, 6 for the gated
variant), sorted by descending final similarity. -/
theorem c8_topk_sorted :
    (∀ (env : ChatRoute.Env) (q oq : List Char) (f : Option (List Char)),
      (ChatRoute.searchDocuments env q oq f).length ≤ 8 ∧
      (ChatRoute.searchDocuments env q oq f).Pairwise
        (fun a b => b.similarity ≤ a.similarity)) ∧
    (∀ (env : ChatRouteV2.Env) (q oq : List Char) (f : Option (List Char)),
      (ChatRouteV2.searchDocuments env q oq f).length ≤ 6 ∧
      (ChatRouteV2.searchDocuments env q oq f).Pairwise
        (fun a b => b.similarity ≤ a.similarity)) := by
  constructor
  · intro env q oq f
    unfold ChatRoute.searchDocuments
    split
    · simp
    · exact ⟨List.length_take_le _ _,
        (pairwise_sortDescBy _ _).sublist (List.take_sublist _ _)⟩
  · intro env q oq f
    unfold ChatRouteV2.searchDocuments
    split
    · simp
    · exact ⟨List.length_take_le _ _,
        (pairwise_sortDescBy _ _).sublist (List.take_sublist _ _)⟩

/-- C9: with a category filter, every returned record's source contains
the filter case-insensitively, and a merged record whose source lacks it
is dropped from the output. -/
theorem c9_category_filter (env : ChatRoute.Env) (q oq f : List Char)
    (d : ChatRoute.DocumentMatch) :
    (d ∈ ChatRoute.searchDocuments env q oq (some f) →
      hasSubstr (jsUpper f) (jsUpper d.source) = true) ∧
    (hasSubstr (jsUpper f) (jsUpper d.source) = false →
      d ∉ ChatRoute.searchDocuments env q oq (some f)) := by
  refine ⟨mem_searchDocuments_keepSource env q oq f d, ?_⟩
  intro hf hmem
  rw [mem_searchDocuments_keepSource env q oq f d hmem] at hf
  cases hf

unseal Rat.add Rat.mul Rat.inv Rat.sub in
/-- Witness for C9, the spec's scenario: filter "PSC" keeps the record
from "Referentiel_PSC1.pdf" and drops the one from "Guide_SST.pdf". -/
theorem c9_category_filter_witness :
    hasSubstr (jsUpper ("PSC".data))
      (jsUpper ("Referentiel_PSC1.pdf".data)) = true ∧
    ChatRoute.searchDocuments
        ⟨true,
         some [⟨1, "c1".data, "Referentiel_PSC1.pdf".data, 8/10⟩,
               ⟨2, "c2".data, "Guide_SST.pdf".data, 7/10⟩],
         none, none⟩ [] [] (some ("PSC".data)) =
      [⟨1, "c1".data, "Referentiel_PSC1.pdf".data, 8/10⟩] :=
  ⟨(c9_category_filter ⟨true,
      some [⟨1, "c1".data, "Referentiel_PSC1.pdf".data, 8/10⟩,
            ⟨2, "c2".data, "Guide_SST.pdf".data, 7/10⟩],
      none, none⟩ [] [] ("PSC".data)
      ⟨1, "c1".data, "Referentiel_PSC1.pdf".data, 8/10⟩).1 (by decide),
   by decide⟩

/-- C7 (amended): reformulation failure falls back to the original
question; an in-band vector-store error leaves exactly the lexical-only
result; an embedding failure makes the whole search return the empty
sequence (the outer catch — lexical hits are lost, not kept); and with
every pass empty the search returns the empty sequence.  The model is a
total function, so no failure escapes to the caller. -/
theorem c7_failure_semantics :
    (∀ question : List Char,
      ChatRoute.reformulateQuery question (.error ()) = question ∧
      ChatRoute.reformulateQuery question (.ok none) = question) ∧
    (∀ (env : ChatRoute.Env) (q oq : List Char) (f : Option (List Char)),
      ChatRoute.searchDocuments { env with vectorResults := none } q oq f =
        ChatRoute.searchDocuments { env with vectorResults := some [] } q oq f) ∧
    (∀ (env : ChatRoute.Env) (q oq : List Char) (f : Option (List Char)),
      env.embedOk = false → ChatRoute.searchDocuments env q oq f = []) ∧
    (∀ (q oq : List Char) (f : Option (List Char)) (embedOk : Bool),
      ChatRoute.searchDocuments ⟨embedOk, some [], some [], some []⟩ q oq f = []) := by
  refine ⟨fun question => ⟨rfl, rfl⟩, fun env q oq f => rfl, ?_, ?_⟩
  · intro env q oq f h
    unfold ChatRoute.searchDocuments
    rw [h]
    simp
  · intro q oq f embedOk
    cases embedOk with
    | false => rfl
    | true =>
      unfold ChatRoute.searchDocuments ChatRoute.combinedResultsOf
        ChatRoute.exactPhraseResultsOf ChatRoute.textResultsOf
      cases f <;> simp [ChatRoute.dedupById, sortDescBy] <;> split <;>
        simp [ChatRoute.dedupById, sortDescBy] <;> split <;>
        simp [ChatRoute.dedupById, sortDescBy]

unseal Rat.add Rat.mul Rat.inv Rat.sub in
/-- Counterexample for C7 as stated: when the embedding call fails (one
of the two vector-pass failure modes the spec names), the chat route
returns the empty sequence even though the same environment with the
vector pass disabled in-band would return a non-empty lexical-only
result — it does not "proceed with lexical-only results". -/
theorem c7_counterexample :
    ChatRoute.searchDocuments
        ⟨false, none, some [⟨7, "hemorragie externe contenu".data, "s".data⟩], none⟩
        ("hemorragie compression".data) ("hemorragie externe".data) none = [] ∧
    ChatRoute.searchDocuments
        ⟨true, none, some [⟨7, "hemorragie externe contenu".data, "s".data⟩], none⟩
        ("hemorragie compression".data) ("hemorragie externe".data) none =
      [⟨7, "hemorragie externe contenu".data, "s".data, 17/20⟩] := by
  exact ⟨rfl, by decide⟩

/-- Witness for C7's amended statement at concrete inputs. -/
theorem c7_failure_semantics_witness :
    ChatRoute.reformulateQuery ("que faire".data) (.error ()) = "que faire".data ∧
    ChatRoute.searchDocuments ⟨false, none, none, none⟩ [] [] none = [] ∧
    ChatRoute.searchDocuments ⟨true, some [], some [], some []⟩ [] [] none = [] :=
  ⟨(c7_failure_semantics.1 _).1,
   c7_failure_semantics.2.2.1 ⟨false, none, none, none⟩ [] [] none rfl,
   c7_failure_semantics.2.2.2 [] [] none true⟩

/-- C4 (amended): in the chat route the conjunctive-pass similarity is
0.85 plus a fixed 0.12 bonus exactly when the content contains the
protocol marker "en présence" (capped at 0.99, always below 1.0); in the
gated variant it is 0.75 plus 0.2 times the fraction of the significant
keywords found in the content, always within [0.75, 0.95]. -/
theorem c4_lexical_scoring :
    (∀ doc : ChatRoute.RawDoc,
      (ChatRoute.scoreExactDoc doc).similarity =
        (if hasSubstr ("en présence".data) (jsLower doc.content) then 97/100
         else 85/100) ∧
      (ChatRoute.scoreExactDoc doc).similarity ≤ 99/100) ∧
    (∀ (kws : List (List Char)) (doc : ChatRouteV2.RawDoc), kws ≠ [] →
      (ChatRouteV2.scoreExactDoc kws doc).similarity =
        75/100 + (((kws.filter
          (fun k => hasSubstr k (jsLower doc.content))).length : ℚ) /
            (kws.length : ℚ)) * (2/10) ∧
      75/100 ≤ (ChatRouteV2.scoreExactDoc kws doc).similarity ∧
      (ChatRouteV2.scoreExactDoc kws doc).similarity ≤ 95/100) := by
  constructor
  · intro doc
    unfold ChatRoute.scoreExactDoc
    dsimp only
    constructor
    · split
      · norm_num [min_def]
      · norm_num [min_def]
    · exact min_le_right _ _
  · intro kws doc hne
    refine ⟨rfl, ?_, ?_⟩ <;>
    · have hlen : 0 < kws.length := List.length_pos.mpr hne
      have hmc : (kws.filter (fun k => hasSubstr k (jsLower doc.content))).length
          ≤ kws.length := List.length_filter_le _ _
      have h0 : (0 : ℚ) ≤ ((kws.filter
          (fun k => hasSubstr k (jsLower doc.content))).length : ℚ) / (kws.length : ℚ) := by
        positivity
      have h1 : ((kws.filter
          (fun k => hasSubstr k (jsLower doc.content))).length : ℚ) / (kws.length : ℚ) ≤ 1 := by
        rw [div_le_one (by exact_mod_cast hlen)]
        exact_mod_cast hmc
      unfold ChatRouteV2.scoreExactDoc
      dsimp only
      linarith

unseal Rat.add Rat.mul Rat.inv Rat.sub in
/-- Counterexample for C4 as stated: in the chat route no fixed base,
non-negative per-keyword bonus rate and sub-1.0 cap reproduce the
conjunctive-pass scores — a hit containing no query keyword but the
phrase "en présence" scores 0.97 while a hit containing every keyword
scores 0.85. -/
theorem c4_lexical_scoring_counterexample :
    ¬ ∃ base bonus cap : ℚ, 0 ≤ bonus ∧ cap < 1 ∧
      ∀ doc ∈ [(⟨1, "en présence".data, "s".data⟩ : ChatRoute.RawDoc),
               (⟨2, "hemorragie externe".data, "s".data⟩ : ChatRoute.RawDoc)],
        (ChatRoute.scoreExactDoc doc).similarity =
          min (base + bonus * ((["hemorragie".data, "externe".data].filter
            (fun k => hasSubstr k (jsLower doc.content))).length : ℚ)) cap := by
  rintro ⟨base, bonus, cap, hb, hcap, h⟩
  have h1 := h (⟨1, "en présence".data, "s".data⟩ : ChatRoute.RawDoc) (by simp)
  have h2 := h (⟨2, "hemorragie externe".data, "s".data⟩ : ChatRoute.RawDoc) (by simp)
  have hs1 : (ChatRoute.scoreExactDoc
      (⟨1, "en présence".data, "s".data⟩ : ChatRoute.RawDoc)).similarity = 97/100 := by
    decide
  have hs2 : (ChatRoute.scoreExactDoc
      (⟨2, "hemorragie externe".data, "s".data⟩ : ChatRoute.RawDoc)).similarity = 85/100 := by
    decide
  have hc1 : ((["hemorragie".data, "externe".data].filter
      (fun k => hasSubstr k (jsLower ("en présence".data)))).length) = 0 := by decide
  have hc2 : ((["hemorragie".data, "externe".data].filter
      (fun k => hasSubstr k (jsLower ("hemorragie externe".data)))).length) = 2 := by decide
  rw [hs1, hc1] at h1
  rw [hs2, hc2] at h2
  push_cast at h1 h2
  have hchain : (97/100 : ℚ) ≤ 85/100 := by
    calc (97/100 : ℚ) = min (base + bonus * 0) cap := h1
      _ ≤ min (base + bonus * 2) cap := min_le_min (by linarith) le_rfl
      _ = 85/100 := h2.symm
  norm_num at hchain

namespace ChatRouteV2

theorem dedupGate_mem (rks : List (List Char)) (l : List DocumentMatch) :
    ∀ (seen : List Nat) (d : DocumentMatch), d ∈ dedupGate rks seen l →
      ∃ d0 ∈ l, d = applyGate rks d0 := by
  induction l with
  | nil => intro seen d h; simp [dedupGate] at h
  | cons d' rest ih =>
    intro seen d h
    simp only [dedupGate] at h
    split at h
    · obtain ⟨d0, hd0, he⟩ := ih seen d h
      exact ⟨d0, List.mem_cons_of_mem _ hd0, he⟩
    · rcases List.mem_cons.mp h with he | hmem
      · exact ⟨d', List.mem_cons_self _ _, he⟩
      · obtain ⟨d0, hd0, he⟩ := ih _ d hmem
        exact ⟨d0, List.mem_cons_of_mem _ hd0, he⟩

end ChatRouteV2

/-- C3: every record the gated variant returns is the relevance-gated
image of some merged record; in particular, when no long query keyword
occurs in the record's embedded title and its raw similarity is under
0.9, its final similarity is exactly the raw similarity times 0.4. -/
theorem c3_relevance_gating (env : ChatRouteV2.Env) (q oq : List Char)
    (f : Option (List Char)) (d : ChatRouteV2.DocumentMatch)
    (h : d ∈ ChatRouteV2.searchDocuments env q oq f) :
    ∃ d0 ∈ ChatRouteV2.allResultsOf env oq,
      d = ChatRouteV2.applyGate (ChatRouteV2.relevanceKeywordsOf oq) d0 ∧
      (ChatRouteV2.isOnTopic (ChatRouteV2.relevanceKeywordsOf oq) d0 = false →
        d0.similarity < 9/10 → d.similarity = d0.similarity * (4/10)) := by
  unfold ChatRouteV2.searchDocuments at h
  split at h
  · simp at h
  · have h1 := List.take_subset _ _ h
    have h2 := (mem_sortDescBy _ _ _).mp h1
    have h3 : d ∈ ChatRouteV2.dedupGate (ChatRouteV2.relevanceKeywordsOf oq) []
        (ChatRouteV2.allResultsOf env oq) := by
      cases f with
      | none => exact h2
      | some fv => exact List.mem_of_mem_filter h2
    obtain ⟨d0, hd0, he⟩ := ChatRouteV2.dedupGate_mem _ _ _ _ h3
    refine ⟨d0, hd0, he, ?_⟩
    intro ht hlt
    rw [he]
    simp [ChatRouteV2.applyGate, ht, hlt]

unseal Rat.add Rat.mul Rat.inv Rat.sub in
/-- Witness for C3: an off-topic vector hit with raw similarity 0.5 is
returned with similarity 0.5 × 0.4 = 0.2 ≤ 0.5 × 0.4, strictly below its
raw score. -/
theorem c3_relevance_gating_witness :
    (∃ d0 ∈ ChatRouteV2.allResultsOf
        ⟨true, some [⟨1, "malaise cardiaque\ndetails".data, "PSE1.pdf".data, 1/2, none⟩],
         none⟩ ("hemorragie".data),
      (⟨1, "malaise cardiaque\ndetails".data, "PSE1.pdf".data, 1/5, none⟩ :
        ChatRouteV2.DocumentMatch) =
        ChatRouteV2.applyGate (ChatRouteV2.relevanceKeywordsOf ("hemorragie".data)) d0 ∧
      (ChatRouteV2.isOnTopic (ChatRouteV2.relevanceKeywordsOf ("hemorragie".data)) d0 = false →
        d0.similarity < 9/10 →
        (⟨1, "malaise cardiaque\ndetails".data, "PSE1.pdf".data, 1/5, none⟩ :
          ChatRouteV2.DocumentMatch).similarity = d0.similarity * (4/10))) ∧
    (ChatRouteV2.searchDocuments
        ⟨true, some [⟨1, "malaise cardiaque\ndetails".data, "PSE1.pdf".data, 1/2, none⟩],
         none⟩ ("q".data) ("hemorragie".data) none).map
      (fun d => d.similarity) = [1/5] ∧
    (1/5 : ℚ) ≤ (1/2) * (4/10) ∧ (1/5 : ℚ) < 1/2 :=
  ⟨c3_relevance_gating _ ("q".data) ("hemorragie".data) none _ (by decide),
   by decide, by norm_num, by norm_num⟩

namespace RechercheRoute

theorem dedupByRef_sublist (l : List ParsedFiche) :
    ∀ seen, (dedupByRef seen l).Sublist l := by
  induction l with
  | nil => intro seen; simp [dedupByRef]
  | cons f rest ih =>
    intro seen
    simp only [dedupByRef]
    split
    · exact (ih seen).trans (List.sublist_cons_self _ _)
    · split
      · exact (ih _).cons₂ f
      · exact (ih seen).cons₂ f

theorem dedupByRef_countP_refless (l : List ParsedFiche) :
    ∀ seen, (dedupByRef seen l).countP (fun f => f.ref == []) =
      l.countP (fun f => f.ref == []) := by
  induction l with
  | nil => intro seen; simp [dedupByRef]
  | cons f rest ih =>
    intro seen
    simp only [dedupByRef]
    split
    · next hdrop =>
      rw [Bool.and_eq_true, decide_eq_true_eq, decide_eq_true_eq] at hdrop
      have hne : (f.ref == []) = false := beq_eq_false_iff_ne.mpr hdrop.1
      rw [List.countP_cons, hne, ih seen]
      simp
    · split
      · rw [List.countP_cons, List.countP_cons, ih]
      · rw [List.countP_cons, List.countP_cons, ih]

theorem dedupByRef_mem_refless (l : List ParsedFiche) :
    ∀ seen f, f ∈ l → f.ref = [] → f ∈ dedupByRef seen l := by
  induction l with
  | nil => intro seen f h; simp at h
  | cons g rest ih =>
    intro seen f hmem hrefl
    simp only [dedupByRef]
    rcases List.mem_cons.mp hmem with rfl | hmem
    · rw [if_neg (by simp [hrefl]), if_neg (by simp [hrefl])]
      exact List.mem_cons_self _ _
    · split
      · exact ih seen f hmem hrefl
      · split
        · exact List.mem_cons_of_mem _ (ih _ f hmem hrefl)
        · exact List.mem_cons_of_mem _ (ih seen f hmem hrefl)

theorem dedupByRef_dropped (l : List ParsedFiche) :
    ∀ seen f, f ∈ l → f ∉ dedupByRef seen l →
      f.ref ≠ [] ∧ (f.ref ∈ seen ∨ ∃ g ∈ dedupByRef seen l, g.ref = f.ref) := by
  induction l with
  | nil => intro seen f h; simp at h
  | cons x rest ih =>
    intro seen f hmem hout
    simp only [dedupByRef] at hout ⊢
    rcases List.mem_cons.mp hmem with rfl | hmem
    · split at hout
      · next hcond =>
        rw [Bool.and_eq_true, decide_eq_true_eq, decide_eq_true_eq] at hcond
        exact ⟨hcond.1, Or.inl hcond.2⟩
      · split at hout
        · exact absurd (List.mem_cons_self _ _) hout
        · exact absurd (List.mem_cons_self _ _) hout
    · split at hout
      · next hcond =>
        rw [if_pos hcond]
        exact ih seen f hmem hout
      · next hcond =>
        split at hout
        · next hx =>
          rw [if_neg hcond, if_pos hx]
          have hout' : f ∉ dedupByRef (x.ref :: seen) rest := fun hc =>
            hout (List.mem_cons_of_mem _ hc)
          obtain ⟨h1, h2⟩ := ih _ f hmem hout'
          refine ⟨h1, ?_⟩
          rcases h2 with hseen | ⟨g, hg, hge⟩
          · rcases List.mem_cons.mp hseen with he | hseen
            · exact Or.inr ⟨x, List.mem_cons_self _ _, he.symm⟩
            · exact Or.inl hseen
          · exact Or.inr ⟨g, List.mem_cons_of_mem _ hg, hge⟩
        · next hx =>
          rw [if_neg hcond, if_neg hx]
          have hout' : f ∉ dedupByRef seen rest := fun hc =>
            hout (List.mem_cons_of_mem _ hc)
          obtain ⟨h1, h2⟩ := ih seen f hmem hout'
          refine ⟨h1, ?_⟩
          rcases h2 with hseen | ⟨g, hg, hge⟩
          · exact Or.inl hseen
          · exact Or.inr ⟨g, List.mem_cons_of_mem _ hg, hge⟩

/-- The reference the header of a record's first line yields, when both
the bracket match and the reference pattern inside it succeed. -/
def headerRefOf (firstLine : List Char) : Option (List Char) :=
  (headerMatchOf firstLine).bind (fun g => (refSearch g.1).map Prod.fst)

theorem refSearch_fst_ne_nil (l : List Char) :
    ∀ rd, refSearch l = some rd → rd.1 ≠ [] := by
  induction l with
  | nil => intro rd h; simp [refSearch] at h
  | cons c rest ih =>
    intro rd h
    simp only [refSearch] at h
    split at h
    · next r6 r hcore =>
      cases h
      match c, rest, hcore with
      | a, b :: c' :: d :: e :: f :: r', hcore =>
        simp only [refCoreAt] at hcore
        split at hcore
        · cases hcore; simp
        · cases hcore
    · exact ih rd h

theorem parseFiche_ref (doc : DocumentMatch) :
    (parseFiche doc).ref =
      (headerRefOf (firstLineOf doc.content)).getD (doc.fiche_ref.getD []) := by
  unfold parseFiche headerRefOf
  dsimp only
  cases hm : headerMatchOf (firstLineOf doc.content) with
  | none => simp
  | some g =>
    obtain ⟨g1, tok, g3⟩ := g
    cases hr : refSearch g1 with
    | none => simp [hr]
    | some rd => simp [hr]

theorem parseFiche_ref_empty_iff (doc : DocumentMatch) :
    (parseFiche doc).ref = [] ↔
      (headerRefOf (firstLineOf doc.content) = none ∧
        doc.fiche_ref.getD [] = []) := by
  rw [parseFiche_ref]
  cases hh : headerRefOf (firstLineOf doc.content) with
  | none => simp
  | some r =>
    simp only [Option.getD_some]
    constructor
    · intro hr
      exfalso
      unfold headerRefOf at hh
      rw [Option.bind_eq_some] at hh
      obtain ⟨g, _, hmap⟩ := hh
      rw [Option.map_eq_some'] at hmap
      obtain ⟨rd, hrd, hfst⟩ := hmap
      exact refSearch_fst_ne_nil _ _ hrd (hfst ▸ hr)
    · rintro ⟨hc, _⟩
      cases hc

end RechercheRoute

/-- C10: the fiche endpoint's reference-deduplication keeps every parsed
fiche whose reference is empty (several may coexist), preserves input
order (the output is a sublist of the parsed sequence), and drops a
fiche only when it carries a non-empty reference already kept earlier; a
parsed reference is empty exactly when the first line yields no header
reference and no stored `fiche_ref` exists. -/
theorem c10_refless_dedup (docs : List RechercheRoute.DocumentMatch) :
    (RechercheRoute.uniqueFichesOf docs).Sublist
        (docs.map RechercheRoute.parseFiche) ∧
    ((RechercheRoute.uniqueFichesOf docs).countP (fun f => f.ref == []) =
      (docs.map RechercheRoute.parseFiche).countP (fun f => f.ref == [])) ∧
    (∀ f ∈ docs.map RechercheRoute.parseFiche, f.ref = [] →
      f ∈ RechercheRoute.uniqueFichesOf docs) ∧
    (∀ f ∈ docs.map RechercheRoute.parseFiche,
      f ∉ RechercheRoute.uniqueFichesOf docs →
        f.ref ≠ [] ∧ ∃ g ∈ RechercheRoute.uniqueFichesOf docs, g.ref = f.ref) ∧
    (∀ doc : RechercheRoute.DocumentMatch,
      (RechercheRoute.parseFiche doc).ref = [] ↔
        (RechercheRoute.headerRefOf (RechercheRoute.firstLineOf doc.content) = none ∧
          doc.fiche_ref.getD [] = [])) := by
  refine ⟨RechercheRoute.dedupByRef_sublist _ [],
    RechercheRoute.dedupByRef_countP_refless _ [], ?_, ?_,
    RechercheRoute.parseFiche_ref_empty_iff⟩
  · intro f hf hrefl
    exact RechercheRoute.dedupByRef_mem_refless _ [] f hf hrefl
  · intro f hf hout
    obtain ⟨h1, h2⟩ := RechercheRoute.dedupByRef_dropped _ [] f hf hout
    refine ⟨h1, ?_⟩
    rcases h2 with hseen | hex
    · simp at hseen
    · exact hex

/-- Witness for C10: two distinct reference-less fiches coexist in the
output while a duplicated non-empty reference is dropped, order kept. -/
theorem c10_refless_dedup_witness :
    RechercheRoute.parseFiche ⟨1, "texte libre\ncorps".data, "a.pdf".data, 0, none⟩ ∈
      RechercheRoute.uniqueFichesOf
        [⟨1, "texte libre\ncorps".data, "a.pdf".data, 0, none⟩,
         ⟨2, "[05PR08 / 12-2022] PSE① X\ncorps".data, "b.pdf".data, 0, none⟩,
         ⟨3, "autre texte libre\ncorps".data, "c.pdf".data, 0, none⟩,
         ⟨4, "[05PR08 / 12-2022] PSE① X bis\ncorps".data, "d.pdf".data, 0, none⟩] ∧
    (RechercheRoute.uniqueFichesOf
        [⟨1, "texte libre\ncorps".data, "a.pdf".data, 0, none⟩,
         ⟨2, "[05PR08 / 12-2022] PSE① X\ncorps".data, "b.pdf".data, 0, none⟩,
         ⟨3, "autre texte libre\ncorps".data, "c.pdf".data, 0, none⟩,
         ⟨4, "[05PR08 / 12-2022] PSE① X bis\ncorps".data, "d.pdf".data, 0, none⟩]).map
      (fun f => f.ref) = [[], "05PR08".data, []] :=
  ⟨(c10_refless_dedup _).2.2.1 _ (by decide) (by decide), by decide⟩

set_option maxRecDepth 200000 in
/-- C6, the spec's scenario: the two-fiche document yields references
05PR08 and 05PR09, chapter 05 named "Urgences vitales", type PR named
"Procédure", level 1 (from the PSE① marker) and update date 12-2022 for
both fiches. -/
theorem c6_two_fiches_scenario :
    (ImportScript.splitIntoPSEFiches
        ("[05PR08 / 12-2022] PSE① Hémorragie externe\nBody text...\n[05PR09 / 12-2022] PSE① Autre fiche\n...".data)).map
      (fun f => f.ficheRef) = ["05PR08".data, "05PR09".data] ∧
    (ImportScript.splitIntoPSEFiches
        ("[05PR08 / 12-2022] PSE① Hémorragie externe\nBody text...\n[05PR09 / 12-2022] PSE① Autre fiche\n...".data)).map
      (fun f => (f.chapter, f.ficheType)) = [("05".data, "PR".data), ("05".data, "PR".data)] ∧
    (ImportScript.splitIntoPSEFiches
        ("[05PR08 / 12-2022] PSE① Hémorragie externe\nBody text...\n[05PR09 / 12-2022] PSE① Autre fiche\n...".data)).map
      (fun f => (f.ficheTypeName, f.updateDate)) =
      [("Procédure".data, "12-2022".data), ("Procédure".data, "12-2022".data)] ∧
    (ImportScript.splitIntoPSEFiches
        ("[05PR08 / 12-2022] PSE① Hémorragie externe\nBody text...\n[05PR09 / 12-2022] PSE① Autre fiche\n...".data)).map
      (fun f => f.pseLevel) = [some 1, some 1] := by
  refine ⟨by decide, by decide, by decide, by decide⟩

namespace ImportScript

/-- The content span of each match: from its start offset to the next
match's start offset, the last one extending to the end of the text. -/
def spansOf (len : Nat) : List PSEMatch → List (Nat × Nat)
  | [] => []
  | [m] => [(m.idx, len)]
  | m :: m2 :: rest => (m.idx, m2.idx) :: spansOf len (m2 :: rest)

/-- The concatenation of a list of spans of the text. -/
def concatSpans (orig : List Char) (spans : List (Nat × Nat)) : List Char :=
  (spans.map (fun se => jsSlice orig se.1 se.2)).join

theorem expectChr_sfx {c : Char} {l r : List Char} (h : expectChr c l = some r) :
    r <:+ l ∧ r.length < l.length := by
  cases l with
  | nil => simp [expectChr] at h
  | cons x xs =>
    simp only [expectChr] at h
    split at h
    · injection h with h2
      subst h2
      exact ⟨List.suffix_cons x xs, by simp⟩
    · cases h

theorem expectDigits_sfx {n : Nat} {l d r : List Char}
    (h : expectDigits n l = some (d, r)) : r <:+ l := by
  simp only [expectDigits] at h
  split at h
  · cases h; exact List.drop_suffix n l
  · cases h

theorem expectType_sfx {l d r : List Char} (h : expectType l = some (d, r)) :
    r <:+ l := by
  match l with
  | [] => simp [expectType] at h
  | [a] => simp [expectType] at h
  | a :: b :: rest =>
    simp only [expectType] at h
    split at h
    · injection h with h2
      injection h2 with h3 h4
      subst h4
      exact (List.suffix_cons b rest).trans (List.suffix_cons a (b :: rest))
    · cases h

theorem takeDigits1_sfx {l d r : List Char} (h : takeDigits1 l = some (d, r)) :
    r <:+ l := by
  simp only [takeDigits1] at h
  split at h
  · cases h
  · cases h; exact List.dropWhile_suffix _

theorem matchHeaderAt_sfx {l rem : List Char} {h : PSEHeader}
    (hm : matchHeaderAt l = some (h, rem)) : rem <:+ l ∧ rem.length < l.length := by
  simp only [matchHeaderAt, Option.bind_eq_some] at hm
  obtain ⟨r1, h1, p2, h2, p3, h3, p4, h4, r6, h6, p8, h8, r9, h9, p10, h10, r11, h11, heq⟩ := hm
  cases heq
  have s1 := expectChr_sfx h1
  have s2 := expectDigits_sfx h2
  have s3 := expectType_sfx h3
  have s4 := takeDigits1_sfx h4
  have s5 : p4.2.dropWhile isJsWs <:+ p4.2 := List.dropWhile_suffix _
  have s6 := expectChr_sfx h6
  have s7 : r6.dropWhile isJsWs <:+ r6 := List.dropWhile_suffix _
  have s8 := expectDigits_sfx h8
  have s9 := expectChr_sfx h9
  have s10 := expectDigits_sfx h10
  have s11 := expectChr_sfx h11
  have hsub : rem <:+ r1 :=
    (((((((((s11.1.trans s10).trans s9.1).trans s8).trans s7).trans s6.1).trans
      s5).trans s4).trans s3).trans s2)
  exact ⟨hsub.trans s1.1, lt_of_le_of_lt hsub.sublist.length_le s1.2⟩

theorem suffix_eq_drop {t l : List Char} (h : t <:+ l) :
    t = l.drop (l.length - t.length) := by
  obtain ⟨s, rfl⟩ := h
  simp [List.length_append]

theorem jsSlice_append_drop (l : List Char) (i j : Nat) (h : i ≤ j) :
    jsSlice l i j ++ l.drop j = l.drop i := by
  unfold jsSlice
  have h1 : l.drop j = (l.drop i).drop (j - i) := by
    rw [List.drop_drop]
    congr 1
    omega
  rw [h1, List.take_append_drop]

theorem findMatchesAuxGo_idx_ge :
    ∀ (fuel : Nat) (l : List Char) (i : Nat) (m : PSEMatch),
      m ∈ findMatchesAuxGo fuel l i → i ≤ m.idx := by
  intro fuel
  induction fuel with
  | zero => intro l i m h; simp [findMatchesAuxGo] at h
  | succ fuel ih =>
    intro l i m h
    cases l with
    | nil => simp [findMatchesAuxGo] at h
    | cons c rest =>
      simp only [findMatchesAuxGo] at h
      split at h
      · rcases List.mem_cons.mp h with rfl | hmem
        · exact le_refl _
        · exact le_trans (Nat.le_add_right _ _) (ih _ _ m hmem)
      · exact le_trans (Nat.le_succ i) (ih _ _ m h)

theorem concatSpans_cons (orig : List Char) (se : Nat × Nat) (rest : List (Nat × Nat)) :
    concatSpans orig (se :: rest) = jsSlice orig se.1 se.2 ++ concatSpans orig rest := by
  simp [concatSpans]

theorem findMatchesAuxGo_concat :
    ∀ (fuel : Nat) (orig : List Char) (i : Nat), i ≤ orig.length →
      concatSpans orig (spansOf orig.length (findMatchesAuxGo fuel (orig.drop i) i)) =
        (match (findMatchesAuxGo fuel (orig.drop i) i).head? with
         | some m => orig.drop m.idx
         | none => ([] : List Char)) := by
  intro fuel
  induction fuel with
  | zero => intro orig i _; simp [findMatchesAuxGo, spansOf, concatSpans]
  | succ fuel ih =>
    intro orig i hi
    cases horig : orig.drop i with
    | nil => simp [findMatchesAuxGo, spansOf, concatSpans]
    | cons c rest =>
      rw [findMatchesAuxGo]
      cases hm : matchHeaderAt (c :: rest) with
      | none =>
        have hlt : i < orig.length := by
          by_contra hc
          push_neg at hc
          rw [List.drop_eq_nil_of_le hc] at horig
          cases horig
        have hrest : rest = orig.drop (i + 1) := by
          have ht : (orig.drop i).drop 1 = orig.drop (i + 1) := by
            rw [List.drop_drop]
          rw [horig] at ht
          simpa using ht
        rw [hrest]
        exact ih orig (i + 1) hlt
      | some p =>
        obtain ⟨h, rem⟩ := p
        have hs := matchHeaderAt_sfx hm
        set n := (c :: rest).length - rem.length with hn
        have hremeq : rem = orig.drop (i + n) := by
          have h1 : rem = (c :: rest).drop n := suffix_eq_drop hs.1
          rw [h1, ← horig, List.drop_drop]
        have hlen : i + n ≤ orig.length := by
          have h2 : (c :: rest).length = orig.length - i := by
            rw [← horig, List.length_drop]
          have h3 : n ≤ (c :: rest).length := by omega
          omega
        have ihn := ih orig (i + n) hlen
        rw [← hremeq] at ihn
        cases hms : findMatchesAuxGo fuel rem (i + n) with
        | nil =>
          have hdl : (orig.drop i).length = orig.length - i := List.length_drop i orig
          simp only [hms, spansOf, concatSpans, List.map_cons, List.map_nil,
            List.join_cons, List.join_nil, List.append_nil, List.head?_cons, jsSlice]
          rw [List.take_of_length_le (by omega)]
        | cons m2 t =>
          have hm2 : i + n ≤ m2.idx :=
            findMatchesAuxGo_idx_ge fuel rem (i + n) m2 (hms ▸ List.mem_cons_self _ _)
          rw [hms] at ihn
          simp only [List.head?_cons] at ihn
          simp only [hms, spansOf, concatSpans_cons, List.head?_cons]
          rw [show ((concatSpans orig (spansOf orig.length (m2 :: t))) = orig.drop m2.idx)
            from ihn]
          exact jsSlice_append_drop orig i m2.idx (by omega)

end ImportScript

theorem buildFiches_length (cleaned : List Char) (ms : List ImportScript.PSEMatch) :
    (ImportScript.buildFiches cleaned ms).length = ms.length := by
  induction ms with
  | nil => rfl
  | cons m rest ih => simp [ImportScript.buildFiches, ih]

/-- C1 (amended): the structural parser produces exactly one fiche per
header match, and the content spans — each running from its match's
start offset to the next match's start offset, the last to the end —
concatenate, in order, to the cleaned text from the FIRST header's start
offset to the end: a gapless, overlap-free partition of that suffix (the
text before the first header is not covered). -/
theorem c1_partition (text : List Char) :
    (ImportScript.splitIntoPSEFiches text).length =
      (ImportScript.findPSEMatches (ImportScript.cleanFichesText text)).length ∧
    ∀ (m : ImportScript.PSEMatch) (ms' : List ImportScript.PSEMatch),
      ImportScript.findPSEMatches (ImportScript.cleanFichesText text) = m :: ms' →
      ImportScript.concatSpans (ImportScript.cleanFichesText text)
        (ImportScript.spansOf (ImportScript.cleanFichesText text).length
          (ImportScript.findPSEMatches (ImportScript.cleanFichesText text))) =
        (ImportScript.cleanFichesText text).drop m.idx := by
  constructor
  · unfold ImportScript.splitIntoPSEFiches
    exact buildFiches_length _ _
  · intro m ms' hms
    have hc := ImportScript.findMatchesAuxGo_concat
      ((ImportScript.cleanFichesText text).length + 1)
      (ImportScript.cleanFichesText text) 0 (Nat.zero_le _)
    rw [List.drop_zero] at hc
    unfold ImportScript.findPSEMatches ImportScript.findMatchesAux at hms
    unfold ImportScript.findPSEMatches ImportScript.findMatchesAux
    rw [hms] at hc
    simp only [List.head?_cons] at hc
    rw [hms]
    exact hc

set_option maxRecDepth 200000 in
/-- Counterexample for C1 as stated: in a text with one fiche header
preceded by a one-character prefix, the parser produces exactly one
fiche, but the concatenated content spans are not the whole cleaned
text — the prefix before the first header is missing. -/
theorem c1_partition_counterexample :
    (ImportScript.findPSEMatches
      (ImportScript.cleanFichesText ("x[05PR08 / 12-2022]a".data))).length = 1 ∧
    (ImportScript.splitIntoPSEFiches ("x[05PR08 / 12-2022]a".data)).length = 1 ∧
    ImportScript.concatSpans (ImportScript.cleanFichesText ("x[05PR08 / 12-2022]a".data))
        (ImportScript.spansOf
          (ImportScript.cleanFichesText ("x[05PR08 / 12-2022]a".data)).length
          (ImportScript.findPSEMatches
            (ImportScript.cleanFichesText ("x[05PR08 / 12-2022]a".data)))) ≠
      ImportScript.cleanFichesText ("x[05PR08 / 12-2022]a".data) :=
  ⟨by decide, by decide, by decide⟩

set_option maxRecDepth 200000 in
/-- Witness for C1's amended statement: for a text starting with its
single header, the spans concatenate to the cleaned text from offset 0. -/
theorem c1_partition_witness :
    ImportScript.concatSpans (ImportScript.cleanFichesText ("[05PR08 / 12-2022]ab".data))
        (ImportScript.spansOf
          (ImportScript.cleanFichesText ("[05PR08 / 12-2022]ab".data)).length
          (ImportScript.findPSEMatches
            (ImportScript.cleanFichesText ("[05PR08 / 12-2022]ab".data)))) =
      (ImportScript.cleanFichesText ("[05PR08 / 12-2022]ab".data)).drop 0 :=
  (c1_partition _).2
    ⟨0, ⟨"05".data, "PR".data, "08".data, "12".data, "2022".data⟩, 18⟩ []
    (by decide)

namespace ImportScript

/-- No two adjacent characters are both whitespace. -/
def NoTwoWs (l : List Char) : Prop :=
  l.Chain' (fun a b => ¬(isJsWs a = true ∧ isJsWs b = true))

theorem noTwoWs_of_isInfix {l1 l2 : List Char} (h : l1 <:+: l2) (hc : NoTwoWs l2) :
    NoTwoWs l1 := hc.infix h

theorem noTwoWs_reverse {l : List Char} (hc : NoTwoWs l) : NoTwoWs l.reverse := by
  unfold NoTwoWs at hc ⊢
  rw [List.chain'_reverse]
  exact hc.imp (fun x y hxy hand => hxy ⟨hand.2, hand.1⟩)

theorem collapseWsRunsGo_nil (fuel : Nat) : collapseWsRunsGo fuel [] = [] := by
  cases fuel <;> rfl

theorem collapseWsRunsGo_noTwoWs : ∀ (fuel : Nat) (l : List Char),
    NoTwoWs (collapseWsRunsGo fuel l) := by
  intro fuel
  induction fuel with
  | zero =>
    intro l
    rw [show collapseWsRunsGo 0 l = [] from by cases l <;> rfl]
    exact List.chain'_nil
  | succ fuel ih =>
    intro l
    cases l with
    | nil =>
      rw [collapseWsRunsGo_nil]
      exact List.chain'_nil (R := fun a b => ¬(isJsWs a = true ∧ isJsWs b = true))
    | cons c rest =>
      simp only [collapseWsRunsGo]
      split
      · rw [NoTwoWs, List.chain'_cons']
        refine ⟨?_, ih _⟩
        intro b hb
        cases hr : rest.dropWhile isJsWs with
        | nil =>
          rw [hr, collapseWsRunsGo_nil] at hb
          simp at hb
        | cons a as =>
          have ha : isJsWs a = false := by
            have hh := List.head_dropWhile_not isJsWs (l := rest) (by simp [hr])
            simp only [hr, List.head_cons] at hh
            simpa using hh
          rw [hr] at hb
          cases fuel with
          | zero => simp [collapseWsRunsGo] at hb
          | succ fuel' =>
            simp only [collapseWsRunsGo, ha, Bool.false_eq_true, if_false,
              List.head?_cons] at hb
            intro hand
            have hba : b = a := by simpa using hb.symm
            rw [hba, ha] at hand
            cases hand.2
      · rw [NoTwoWs, List.chain'_cons']
        refine ⟨?_, ih _⟩
        intro b hb hand
        next hc2 =>
        simp at hc2
        rw [hc2] at hand
        cases hand.1

end ImportScript

namespace ImportScript

theorem dropWhile_ws_length_ge {l : List Char} (h : NoTwoWs l) :
    l.length ≤ (l.dropWhile isJsWs).length + 1 := by
  cases l with
  | nil => simp
  | cons a t =>
    cases ha : isJsWs a with
    | false => simp [List.dropWhile, ha]
    | true =>
      cases t with
      | nil => simp [List.dropWhile, ha]
      | cons b t' =>
        have hpred := (List.chain'_cons.mp h).1
        have hb : isJsWs b = false := by
          cases hbv : isJsWs b with
          | false => rfl
          | true => exact absurd ⟨ha, hbv⟩ hpred
        simp [List.dropWhile, ha, hb]

theorem jsTrim_length_ge {l : List Char} (h : NoTwoWs l) :
    l.length ≤ (jsTrim l).length + 2 := by
  unfold jsTrim
  have h1 : NoTwoWs (l.dropWhile isJsWs) :=
    noTwoWs_of_isInfix (List.dropWhile_suffix _).isInfix h
  have h2 : NoTwoWs (l.dropWhile isJsWs).reverse := noTwoWs_reverse h1
  have g1 := dropWhile_ws_length_ge h
  have g2 := dropWhile_ws_length_ge h2
  rw [List.length_reverse] at g2
  simp only [List.length_reverse]
  omega

theorem jsTrim_length_le (l : List Char) : (jsTrim l).length ≤ l.length := by
  unfold jsTrim
  have g1 := (List.dropWhile_sublist (l := l) isJsWs).length_le
  have g2 := (List.dropWhile_sublist (l := (l.dropWhile isJsWs).reverse) isJsWs).length_le
  rw [List.length_reverse] at g2
  simp only [List.length_reverse]
  omega

theorem noTwoWs_jsSlice {l : List Char} (h : NoTwoWs l) (s e : Nat) :
    NoTwoWs (jsSlice l s e) := by
  unfold jsSlice
  exact noTwoWs_of_isInfix
    (( List.take_prefix _ _).isInfix.trans (List.drop_suffix s l).isInfix) h

theorem jsSlice_length (l : List Char) (s e : Nat) :
    (jsSlice l s e).length = min (e - s) (l.length - s) := by
  simp [jsSlice]

theorem lastIndexOfWithin_le (l : List Char) (ch : Char) (f : Nat) :
    lastIndexOfWithin l ch f ≤ (f : Int) := by
  unfold lastIndexOfWithin
  split
  · next k hk =>
    have h1 : (l.take (f + 1)).length ≤ f + 1 := by
      simpa using List.length_take_le (f + 1) l
    omega
  · omega

theorem chunkWindowEnd_le (t : List Char) (start : Nat) :
    chunkWindowEnd t start ≤ start + CHUNK_SIZE + 1 := by
  unfold chunkWindowEnd
  dsimp only
  split
  · split
    · next hbp =>
      have h1 := lastIndexOfWithin_le t '.' (start + CHUNK_SIZE)
      have h2 := lastIndexOfWithin_le t '\n' (start + CHUNK_SIZE)
      have h3 : max (lastIndexOfWithin t '.' (start + CHUNK_SIZE))
          (lastIndexOfWithin t '\n' (start + CHUNK_SIZE)) ≤ ((start + CHUNK_SIZE : Nat) : Int) :=
        max_le h1 h2
      omega
    · omega
  · omega

theorem chunkWindowEnd_ge (t : List Char) (start : Nat) :
    start + 252 ≤ chunkWindowEnd t start := by
  unfold chunkWindowEnd CHUNK_SIZE
  dsimp only
  split
  · split
    · next hbp => omega
    · omega
  · omega

theorem chunkSpansGo_head (t : List Char) (fuel s : Nat) (se : Nat × Nat)
    (h : (chunkSpansGo t fuel s).head? = some se) : se.1 = s := by
  cases fuel with
  | zero => simp [chunkSpansGo] at h
  | succ fuel =>
    simp only [chunkSpansGo] at h
    split at h
    · simp only [List.head?_cons] at h
      rw [← Option.some_inj.mp h]
    · simp at h

theorem chunkSpansGo_mem (t : List Char) :
    ∀ (fuel s : Nat) (se : Nat × Nat), se ∈ chunkSpansGo t fuel s →
      se.1 < t.length ∧ se.2 = chunkWindowEnd t se.1 := by
  intro fuel
  induction fuel with
  | zero => intro s se h; simp [chunkSpansGo] at h
  | succ fuel ih =>
    intro s se h
    simp only [chunkSpansGo] at h
    split at h
    · next hguard =>
      rcases List.mem_cons.mp h with rfl | hmem
      · exact ⟨hguard, rfl⟩
      · exact ih _ se hmem
    · simp at h

theorem chunkSpansGo_ne_nil_guard (t : List Char) (fuel s : Nat)
    (h : chunkSpansGo t fuel s ≠ []) : s < t.length := by
  cases fuel with
  | zero => simp [chunkSpansGo] at h
  | succ fuel =>
    by_contra hc
    push_neg at hc
    simp [chunkSpansGo, Nat.not_lt.mpr hc] at h

theorem chunkSpansGo_chain (t : List Char) :
    ∀ (fuel s : Nat), List.Chain' (fun a b => b.1 = a.2 - CHUNK_OVERLAP)
      (chunkSpansGo t fuel s) := by
  intro fuel
  induction fuel with
  | zero => intro s; simp [chunkSpansGo]
  | succ fuel ih =>
    intro s
    simp only [chunkSpansGo]
    split
    · rw [List.chain'_cons']
      refine ⟨?_, ih _⟩
      intro b hb
      cases hh : (chunkSpansGo t fuel (chunkWindowEnd t s - CHUNK_OVERLAP)).head? with
      | none => rw [hh] at hb; cases hb
      | some se =>
        rw [hh] at hb
        have hbse : b = se := by simpa using hb.symm
        rw [hbse, chunkSpansGo_head t fuel _ se hh]
    · simp

end ImportScript

namespace ImportScript

theorem noTwoWs_jsTrim {l : List Char} (h : NoTwoWs l) : NoTwoWs (jsTrim l) := by
  unfold jsTrim
  exact noTwoWs_reverse (noTwoWs_of_isInfix (List.dropWhile_suffix _).isInfix
    (noTwoWs_reverse (noTwoWs_of_isInfix (List.dropWhile_suffix _).isInfix h)))

theorem noTwoWs_cleanChunksText (text : List Char) :
    NoTwoWs (cleanChunksText text) := by
  unfold cleanChunksText collapseWsRuns
  exact noTwoWs_jsTrim (collapseWsRunsGo_noTwoWs _ _)

theorem chunkSpansGo_dropLast_retained (t : List Char) (ht : NoTwoWs t) :
    ∀ (fuel s : Nat), ∀ se ∈ (chunkSpansGo t fuel s).dropLast,
      50 < (jsTrim (jsSlice t se.1 se.2)).length := by
  intro fuel
  induction fuel with
  | zero => intro s se h; simp [chunkSpansGo] at h
  | succ fuel ih =>
    intro s se h
    simp only [chunkSpansGo] at h
    split at h
    · next hguard =>
      cases hrest : chunkSpansGo t fuel (chunkWindowEnd t s - CHUNK_OVERLAP) with
      | nil => rw [hrest] at h; simp at h
      | cons r rs =>
        rw [hrest] at h
        rw [show ((s, chunkWindowEnd t s) :: r :: rs).dropLast =
            (s, chunkWindowEnd t s) :: (r :: rs).dropLast by simp] at h
        rcases List.mem_cons.mp h with rfl | hmem
        · -- a window with a successor: its slice keeps > 50 characters
          have hcont : chunkWindowEnd t s - CHUNK_OVERLAP < t.length :=
            chunkSpansGo_ne_nil_guard t fuel _ (by rw [hrest]; exact List.cons_ne_nil _ _)
          have hge := chunkWindowEnd_ge t s
          have hsl := jsSlice_length t s (chunkWindowEnd t s)
          have htrim := jsTrim_length_ge (noTwoWs_jsSlice ht s (chunkWindowEnd t s))
          rw [hsl] at htrim
          unfold CHUNK_OVERLAP at hcont
          have hmin : 153 ≤ min (chunkWindowEnd t s - s) (t.length - s) :=
            Nat.le_min.mpr ⟨by omega, by omega⟩
          show 50 < (jsTrim (jsSlice t s (chunkWindowEnd t s))).length
          omega
        · rw [← hrest] at hmem
          exact ih _ se hmem
    · simp at h

end ImportScript

theorem filter_eq_self_or_dropLast {α : Type} (p : α → Bool) :
    ∀ l : List α, (∀ x ∈ l.dropLast, p x = true) →
      l.filter p = l ∨ l.filter p = l.dropLast := by
  intro l
  induction l with
  | nil => intro _; left; rfl
  | cons x t ih =>
    intro hp
    cases t with
    | nil =>
      cases hx : p x with
      | true => left; simp [List.filter_cons, hx]
      | false => right; simp [List.filter_cons, hx]
    | cons y t' =>
      have hx : p x = true := hp x (by simp)
      have hp' : ∀ z ∈ (y :: t').dropLast, p z = true := by
        intro z hz
        exact hp z (by simp [hz])
      rw [List.filter_cons, if_pos hx]
      rcases ih hp' with he | he
      · left; rw [he]
      · right
        rw [he]
        simp

theorem filterMap_if {α β : Type} (p : α → Prop) [DecidablePred p] (f : α → β) :
    ∀ l : List α,
      (l.filterMap (fun x => if p x then some (f x) else none)) =
        (l.filter (fun x => decide (p x))).map f := by
  intro l
  induction l with
  | nil => rfl
  | cons x t ih =>
    by_cases hx : p x
    · simp [List.filterMap_cons, List.filter_cons, hx, ih]
    · simp [List.filterMap_cons, List.filter_cons, hx, ih]

/-- C5 (amended): every chunk of the fallback splitter is longer than the
50-character discard threshold and at most CHUNK_SIZE + 1 = 501
characters long (the break point may land exactly on the window end,
adding one character beyond CHUNK_SIZE); the output is exactly the
trimmed slices of the retained windows; and each retained window except
the last starts exactly CHUNK_OVERLAP before the previous window's end. -/
theorem c5_chunk_bounds (text : List Char) :
    (∀ chunk ∈ ImportScript.splitIntoChunks text,
      50 < chunk.length ∧ chunk.length ≤ ImportScript.CHUNK_SIZE + 1) ∧
    ImportScript.splitIntoChunks text =
      ((ImportScript.chunkSpans (ImportScript.cleanChunksText text) 0).filter
        (fun se => 50 <
          (jsTrim (jsSlice (ImportScript.cleanChunksText text) se.1 se.2)).length)).map
        (fun se => jsTrim (jsSlice (ImportScript.cleanChunksText text) se.1 se.2)) ∧
    List.Chain' (fun a b => b.1 = a.2 - ImportScript.CHUNK_OVERLAP)
      ((ImportScript.chunkSpans (ImportScript.cleanChunksText text) 0).filter
        (fun se => 50 <
          (jsTrim (jsSlice (ImportScript.cleanChunksText text) se.1 se.2)).length)) := by
  refine ⟨?_, ?_, ?_⟩
  · intro chunk hc
    unfold ImportScript.splitIntoChunks at hc
    obtain ⟨se, hse, hsome⟩ := List.mem_filterMap.mp hc
    split at hsome
    · next hlen =>
      cases hsome
      refine ⟨hlen, ?_⟩
      obtain ⟨hs1, hs2⟩ := ImportScript.chunkSpansGo_mem _ _ _ _ hse
      have hle := ImportScript.chunkWindowEnd_le (ImportScript.cleanChunksText text) se.1
      have htr := ImportScript.jsTrim_length_le
        (jsSlice (ImportScript.cleanChunksText text) se.1 se.2)
      have hsl := ImportScript.jsSlice_length (ImportScript.cleanChunksText text) se.1 se.2
      have hminle : min (se.2 - se.1)
          ((ImportScript.cleanChunksText text).length - se.1) ≤ se.2 - se.1 :=
        Nat.min_le_left _ _
      omega
    · cases hsome
  · unfold ImportScript.splitIntoChunks
    exact filterMap_if _ _ _
  · have hall : ∀ se ∈ (ImportScript.chunkSpans (ImportScript.cleanChunksText text) 0).dropLast,
        (decide (50 <
          (jsTrim (jsSlice (ImportScript.cleanChunksText text) se.1 se.2)).length)) = true := by
      intro se hse
      exact decide_eq_true
        (ImportScript.chunkSpansGo_dropLast_retained _
          (ImportScript.noTwoWs_cleanChunksText text) _ _ se hse)
    have hchain := ImportScript.chunkSpansGo_chain (ImportScript.cleanChunksText text)
      ((ImportScript.cleanChunksText text).length + 1) 0
    rcases filter_eq_self_or_dropLast _ _ hall with he | he
    · rw [show (ImportScript.chunkSpans (ImportScript.cleanChunksText text) 0).filter
          (fun se => 50 <
            (jsTrim (jsSlice (ImportScript.cleanChunksText text) se.1 se.2)).length) =
          ImportScript.chunkSpans (ImportScript.cleanChunksText text) 0 from he]
      exact hchain
    · rw [show (ImportScript.chunkSpans (ImportScript.cleanChunksText text) 0).filter
          (fun se => 50 <
            (jsTrim (jsSlice (ImportScript.cleanChunksText text) se.1 se.2)).length) =
          (ImportScript.chunkSpans (ImportScript.cleanChunksText text) 0).dropLast from he]
      exact hchain.infix ( List.dropLast_prefix _).isInfix

set_option maxRecDepth 1000000 in
/-- Counterexample for C5 as stated: with a period sitting exactly at the
window-end index, the first chunk is 501 characters long, exceeding the
configured maximum window size of 500. -/
theorem c5_chunk_bounds_counterexample :
    ¬ ∀ chunk ∈ ImportScript.splitIntoChunks
        (List.replicate 500 'a' ++ ['.', 'a']),
      chunk.length ≤ ImportScript.CHUNK_SIZE := by
  decide

set_option maxRecDepth 1000000 in
/-- Witness for C5's amended statement: that 501-character first chunk
is within the corrected CHUNK_SIZE + 1 bound. -/
theorem c5_chunk_bounds_witness :
    50 < (List.replicate 500 'a' ++ ['.'] : List Char).length ∧
    (List.replicate 500 'a' ++ ['.'] : List Char).length ≤ ImportScript.CHUNK_SIZE + 1 :=
  (c5_chunk_bounds (List.replicate 500 'a' ++ ['.', 'a'])).1
    (List.replicate 500 'a' ++ ['.']) (by decide)

unseal Rat.add Rat.mul Rat.inv Rat.sub in
/-- Witness for C4's amended statement at a concrete keyword set and
document: the gated variant's conjunctive score stays within
[0.75, 0.95]. -/
theorem c4_lexical_scoring_witness :
    75/100 ≤ (ChatRouteV2.scoreExactDoc ["hemorragie".data]
      ⟨1, "hemorragie externe".data, "s".data, none⟩).similarity ∧
    (ChatRouteV2.scoreExactDoc ["hemorragie".data]
      ⟨1, "hemorragie externe".data, "s".data, none⟩).similarity ≤ 95/100 :=
  ⟨(c4_lexical_scoring.2 ["hemorragie".data]
      ⟨1, "hemorragie externe".data, "s".data, none⟩ (by decide)).2.1,
   (c4_lexical_scoring.2 ["hemorragie".data]
      ⟨1, "hemorragie externe".data, "s".data, none⟩ (by decide)).2.2⟩
